import Mathlib

/-!
Verification of the `LastAIStanding` survival-ledger contract
(`src/unnamed/part_006`, Solidity).

Shallow embedding conventions:
* Addresses, agent ids, epochs and token amounts are `Nat`.  The zero address
  is `0` (the `address(0)` sentinel used by `agentIdToAddr`).
* Solidity checked arithmetic reverts on underflow; every checked subtraction
  in the source is embedded through `checkedSub`, which fails with
  `Err.ArithPanic` exactly when the EVM would raise an arithmetic panic.
  Checked additions are embedded as plain `Nat` addition: a checked addition
  never wraps, and in the EVM it would revert above `2^256`; the theorems
  below are stated under trace bounds that keep every 256-bit quantity far
  below `2^256`, where the two semantics agree.
* `unchecked` narrow-width arithmetic is embedded with an explicit modulus
  where the wrap is reachable: the `uint96 totalPaid` accumulation uses
  `% U96`, and the `uint64` epoch casts use `% U64`.  The `unchecked`
  256-bit additions (`claimable += …`, `totalRewardsDistributed += …`) are
  embedded as plain addition for the same reason as checked additions.
  The `unchecked` subtraction `lastHeartbeatEpoch - birthEpoch` never
  underflows in a reachable state (`birthEpoch ≤ lastHeartbeatEpoch` is an
  invariant proved below), so it is embedded as `Nat` subtraction.
  The `unchecked` 64-bit counters (`totalAlive`, `totalDead`,
  `totalEverRegistered`) are embedded as plain `Nat`; no claim depends on
  their wrap-around behaviour.
* `block.timestamp / EPOCH_DURATION` is passed to each operation as an
  explicit `epoch` argument; trace validity (`ValidOp`, `EpochsMono`) states
  the environment facts that hold on any real chain: the sender is not the
  zero address, timestamps are non-decreasing, epochs fit in 64 bits, and
  the chain is past epoch 0 (a real `block.timestamp` is far above
  `EPOCH_DURATION`, so `currentEpoch ≥ 1`).
* The ghost fields `totalIn`, `totalOut` and `dustBound` are instrumentation
  only (total USDC ever transferred in/out via `safeTransferFrom` /
  `safeTransfer`, and the accumulated rounding budget of `kill` events);
  they are not contract storage and no operation reads them.
-/

namespace LastAIStanding

/-- `PRECISION = 1e18`, the fixed-point scale of `accRewardPerAge`. -/
def PRECISION : Nat := 10 ^ 18

/-- `TREASURY_BPS = 1000` (10%). -/
def TREASURY_BPS : Nat := 1000

/-- `BPS_DENOMINATOR = 10000`. -/
def BPS_DENOMINATOR : Nat := 10000

/-- `2^64`, the modulus of `uint64` epoch fields. -/
def U64 : Nat := 2 ^ 64

/-- `2^96`, the modulus of the `uint96 totalPaid` field. -/
def U96 : Nat := 2 ^ 96

/-- Per-agent storage (`struct Agent`). -/
structure Agent where
  birthEpoch : Nat
  lastHeartbeatEpoch : Nat
  alive : Bool
  totalPaid : Nat
  rewardDebt : Nat
  claimable : Nat
  agentId : Nat
deriving Repr, DecidableEq

/-- The default (never-written) storage slot of `mapping(address => Agent)`. -/
def Agent.empty : Agent :=
  { birthEpoch := 0, lastHeartbeatEpoch := 0, alive := false
    totalPaid := 0, rewardDebt := 0, claimable := 0, agentId := 0 }

/-- The contract's storage, plus ghost accounting fields (see module header). -/
structure State where
  agents : Nat → Agent
  agentIdToAddr : Nat → Nat
  registry : List Nat
  totalAlive : Nat
  totalDead : Nat
  totalEverRegistered : Nat
  totalAge : Nat
  accRewardPerAge : Nat
  treasury : Nat
  treasuryBalance : Nat
  totalRewardsDistributed : Nat
  -- ghost instrumentation
  totalIn : Nat
  totalOut : Nat
  dustBound : Nat

/-- Immutable deployment parameters (`EPOCH_DURATION`, `COST_PER_EPOCH`). -/
structure Config where
  epochDuration : Nat
  costPerEpoch : Nat

/-- The constructor's `InvalidConfig` validation. -/
def Config.valid (c : Config) : Prop :=
  c.epochDuration ≠ 0 ∧ c.costPerEpoch ≠ 0 ∧ c.costPerEpoch ≤ U96 - 1

instance : DecidablePred Config.valid := fun c =>
  inferInstanceAs (Decidable (c.epochDuration ≠ 0 ∧ c.costPerEpoch ≠ 0 ∧
    c.costPerEpoch ≤ U96 - 1))

/-- The distinct revert conditions of the contract.  `ArithPanic` stands for
an EVM arithmetic/allocation/index panic (Solidity panic codes 0x11/0x32/0x41),
as opposed to the contract's named custom errors. -/
inductive Err where
  | AlreadyRegistered | NotRegistered | AlreadyDead | AlreadyHeartbeat
  | MissedEpoch | NotDeadYet | NothingToClaim | InvalidRange
  | InvalidConfig | NotAgentWallet | AgentIdTaken | NotTreasury
  | ZeroAddress | ArithPanic
deriving Repr, DecidableEq

/-- Solidity checked subtraction: reverts (panic 0x11) on underflow. -/
def checkedSub (x y : Nat) : Except Err Nat :=
  if y ≤ x then .ok (x - y) else .error .ArithPanic

/-- The state of a freshly deployed contract (`treasury = msg.sender`). -/
def initState (deployer : Nat) : State :=
  { agents := fun _ => Agent.empty
    agentIdToAddr := fun _ => 0
    registry := []
    totalAlive := 0, totalDead := 0, totalEverRegistered := 0
    totalAge := 0, accRewardPerAge := 0
    treasury := deployer, treasuryBalance := 0
    totalRewardsDistributed := 0
    totalIn := 0, totalOut := 0, dustBound := 0 }

-- ─── Views ─────────────────────────────────────────────────────────────

/-- `currentEpoch() = block.timestamp / EPOCH_DURATION`. -/
def currentEpoch (c : Config) (timestamp : Nat) : Nat :=
  timestamp / c.epochDuration

/-- The age formula `lastHeartbeatEpoch - birthEpoch + 1` used by the actions
(the source computes it `unchecked`; it never underflows in reachable
states since `birthEpoch ≤ lastHeartbeatEpoch` is invariant). -/
def ageOf (a : Agent) : Nat :=
  a.lastHeartbeatEpoch - a.birthEpoch + 1

/-- `getAge`: 0 for the zero `birthEpoch` sentinel, else the age formula
(a tombstone value for dead agents). -/
def getAge (s : State) (addr : Nat) : Nat :=
  let a := s.agents addr
  if a.birthEpoch = 0 then 0 else ageOf a

/-- `isAlive`: the stored flag, and the heartbeat window has not lapsed. -/
def isAlive (s : State) (epoch addr : Nat) : Bool :=
  let a := s.agents addr
  a.alive && decide (epoch ≤ a.lastHeartbeatEpoch + 1)

/-- `isKillable`: the stored flag, and the heartbeat window has lapsed. -/
def isKillable (s : State) (epoch addr : Nat) : Bool :=
  let a := s.agents addr
  a.alive && decide (epoch > a.lastHeartbeatEpoch + 1)

/-- `pendingReward`.  The checked subtraction `age*acc/PRECISION - rewardDebt`
can panic, hence the `Except`. -/
def pendingReward (s : State) (addr : Nat) : Except Err Nat :=
  let a := s.agents addr
  if a.birthEpoch = 0 then .ok 0
  else if a.alive = false then .ok a.claimable
  else do
    let base ← checkedSub (ageOf a * s.accRewardPerAge / PRECISION) a.rewardDebt
    .ok (base + a.claimable)

-- ─── Actions ───────────────────────────────────────────────────────────

/-- The treasury's cut of one payment: `COST_PER_EPOCH * TREASURY_BPS /
BPS_DENOMINATOR`. -/
def treasuryFee (c : Config) : Nat :=
  c.costPerEpoch * TREASURY_BPS / BPS_DENOMINATOR

/-- The pool portion of one payment: `COST_PER_EPOCH - treasuryFee`. -/
def poolAmount (c : Config) : Nat :=
  c.costPerEpoch - treasuryFee c

/-- The agent record written by a successful `register` (fresh or
re-registration); `prevClaimable` is carried over from the previous life. -/
def registerAgent (c : Config) (agentId epoch : Nat)
    (acc prevClaimable : Nat) : Agent :=
  { birthEpoch := epoch % U64
    lastHeartbeatEpoch := epoch % U64
    alive := true
    totalPaid := poolAmount c % U96
    rewardDebt := acc / PRECISION   -- age = 1
    claimable := prevClaimable      -- carry over unclaimed rewards
    agentId := agentId }

/-- The successful effect of `register(agentId)` (the storage writes after
all guards have passed). -/
def registerEffect (c : Config) (sender agentId epoch : Nat) (s : State) :
    State :=
  let isNew := (s.agents sender).birthEpoch = 0
  let a' := registerAgent c agentId epoch s.accRewardPerAge
    (s.agents sender).claimable
  { s with
    agents := fun x => if x = sender then a' else s.agents x
    agentIdToAddr :=
      if isNew then fun i => if i = agentId then sender else s.agentIdToAddr i
      else s.agentIdToAddr
    registry := if isNew then s.registry ++ [sender] else s.registry
    totalAlive := s.totalAlive + 1
    totalEverRegistered := s.totalEverRegistered + 1
    totalAge := s.totalAge + 1
    treasuryBalance := s.treasuryBalance + treasuryFee c
    totalIn := s.totalIn + c.costPerEpoch }

/-- `register(agentId)`.  `wallet` is the ERC-8004 identity registry's
`getAgentWallet` at call time; `epoch` is `currentEpoch()` at call time. -/
def register (c : Config) (wallet : Nat → Nat) (sender agentId epoch : Nat)
    (s : State) : Except Err State :=
  if wallet agentId ≠ sender then .error .NotAgentWallet
  else if s.agentIdToAddr agentId ≠ 0 ∧ s.agentIdToAddr agentId ≠ sender then
    .error .AgentIdTaken
  else if (s.agents sender).alive then .error .AlreadyRegistered
  else if (s.agents sender).birthEpoch ≠ 0 ∧
      (s.agents sender).agentId ≠ agentId then .error .AgentIdTaken
  else .ok (registerEffect c sender agentId epoch s)

/-- The agent record written by a successful `heartbeat`. -/
def heartbeatAgent (c : Config) (epoch pending acc : Nat) (a : Agent) :
    Agent :=
  { a with
    claimable := a.claimable + pending
    totalPaid := (a.totalPaid + poolAmount c) % U96
    lastHeartbeatEpoch := epoch % U64
    rewardDebt := (ageOf a + 1) * acc / PRECISION }

/-- The successful effect of `heartbeat()` given the settled pending reward. -/
def heartbeatEffect (c : Config) (sender epoch pending : Nat) (s : State) :
    State :=
  let a' := heartbeatAgent c epoch pending s.accRewardPerAge (s.agents sender)
  { s with
    agents := fun x => if x = sender then a' else s.agents x
    treasuryBalance := s.treasuryBalance + treasuryFee c
    totalAge := s.totalAge + 1
    totalIn := s.totalIn + c.costPerEpoch }

/-- `heartbeat()`. -/
def heartbeat (c : Config) (sender epoch : Nat) (s : State) :
    Except Err State :=
  if (s.agents sender).birthEpoch = 0 then .error .NotRegistered
  else if (s.agents sender).alive = false then .error .AlreadyDead
  else if epoch = (s.agents sender).lastHeartbeatEpoch then
    .error .AlreadyHeartbeat
  else if epoch > (s.agents sender).lastHeartbeatEpoch + 1 then
    .error .MissedEpoch
  else
    match checkedSub
        (ageOf (s.agents sender) * s.accRewardPerAge / PRECISION)
        (s.agents sender).rewardDebt with
    | .error e => .error e
    | .ok pending => .ok (heartbeatEffect c sender epoch pending s)

/-- The agent record written by a successful `kill` on the target. -/
def killAgent (pending newTotalAge : Nat) (a : Agent) : Agent :=
  { a with
    claimable := a.claimable + pending +
      (if newTotalAge > 0 then 0 else a.totalPaid)
    rewardDebt := 0
    alive := false }

/-- The successful effect of `kill(target)` given the settled pending reward
and the decremented `totalAge`. -/
def killEffect (target pending newTotalAge : Nat) (s : State) : State :=
  let a := s.agents target
  let reward := a.totalPaid
  let a' := killAgent pending newTotalAge a
  { s with
    agents := fun x => if x = target then a' else s.agents x
    totalAlive := s.totalAlive - 1
    totalDead := s.totalDead + 1
    totalAge := newTotalAge
    accRewardPerAge :=
      if newTotalAge > 0 then
        s.accRewardPerAge + reward * PRECISION / newTotalAge
      else s.accRewardPerAge
    totalRewardsDistributed := s.totalRewardsDistributed + reward
    -- ghost: the rounding budget of this death event is the number of
    -- participants left alive (each accrues against a floored coefficient)
    dustBound := s.dustBound +
      (if newTotalAge > 0 then
        ((s.registry.filter fun p =>
          (if p = target then a' else s.agents p).alive).length)
       else 0) }

/-- `kill(target)` (permissionless; the caller is irrelevant to the effect). -/
def kill (target epoch : Nat) (s : State) : Except Err State :=
  if (s.agents target).birthEpoch = 0 then .error .NotRegistered
  else if (s.agents target).alive = false then .error .AlreadyDead
  else if epoch ≤ (s.agents target).lastHeartbeatEpoch + 1 then
    .error .NotDeadYet
  else
    match checkedSub
        (ageOf (s.agents target) * s.accRewardPerAge / PRECISION)
        (s.agents target).rewardDebt with
    | .error e => .error e
    | .ok pending =>
      -- checked `totalAge -= age`
      match checkedSub s.totalAge (ageOf (s.agents target)) with
      | .error e => .error e
      | .ok newTotalAge => .ok (killEffect target pending newTotalAge s)

/-- `claimTreasury()`. -/
def claimTreasury (sender : Nat) (s : State) : Except Err State :=
  if sender ≠ s.treasury then .error .NotTreasury
  else if s.treasuryBalance = 0 then .error .NothingToClaim
  else .ok { s with
    treasuryBalance := 0
    totalOut := s.totalOut + s.treasuryBalance }

/-- `transferTreasury(newTreasury)`. -/
def transferTreasury (sender newTreasury : Nat) (s : State) :
    Except Err State :=
  if sender ≠ s.treasury then .error .NotTreasury
  else if newTreasury = 0 then .error .ZeroAddress
  else .ok { s with treasury := newTreasury }

/-- The agent record written by a successful `claim` by a living agent
(checkpoint advanced, claimable zeroed). -/
def claimAgentAlive (acc : Nat) (a : Agent) : Agent :=
  { a with rewardDebt := ageOf a * acc / PRECISION, claimable := 0 }

/-- The agent record written by a successful `claim` by a dead agent. -/
def claimAgentDead (a : Agent) : Agent :=
  { a with claimable := 0 }

/-- The successful effect of `claim()` by a living agent: the payout
`age*acc/PRECISION - rewardDebt + claimable` is transferred out, the
checkpoint advanced, `claimable` zeroed. -/
def claimEffectAlive (sender : Nat) (s : State) : State :=
  { s with
    agents := fun x => if x = sender then
        claimAgentAlive s.accRewardPerAge (s.agents sender)
      else s.agents x
    totalOut := s.totalOut +
      ((ageOf (s.agents sender) * s.accRewardPerAge / PRECISION -
        (s.agents sender).rewardDebt) + (s.agents sender).claimable) }

/-- The successful effect of `claim()` by a dead agent: the stored
`claimable` is transferred out and zeroed. -/
def claimEffectDead (sender : Nat) (s : State) : State :=
  { s with
    agents := fun x => if x = sender then claimAgentDead (s.agents sender)
      else s.agents x
    totalOut := s.totalOut + (s.agents sender).claimable }

/-- `claim()`. -/
def claim (sender : Nat) (s : State) : Except Err State :=
  if (s.agents sender).birthEpoch = 0 then .error .NotRegistered
  else if (s.agents sender).alive then
    match checkedSub
        (ageOf (s.agents sender) * s.accRewardPerAge / PRECISION)
        (s.agents sender).rewardDebt with
    | .error e => .error e
    | .ok base =>
      if base + (s.agents sender).claimable = 0 then .error .NothingToClaim
      else .ok (claimEffectAlive sender s)
  else
    if (s.agents sender).claimable = 0 then .error .NothingToClaim
    else .ok (claimEffectDead sender s)

-- ─── Batch Query Engine ────────────────────────────────────────────────

/-- The `AgentInfo` view struct returned by `getAgentList`. -/
structure AgentInfo where
  addr : Nat
  agentId : Nat
  birthEpoch : Nat
  lastHeartbeatEpoch : Nat
  alive : Bool
  killable : Bool
  age : Nat
  totalPaid : Nat
  pendingReward : Nat
deriving Repr, DecidableEq

/-- One loop iteration of `getAgentList` (the snapshot of one registry slot).
The checked subtraction in the reward expression can panic. -/
def agentInfoAt (s : State) (epoch addr : Nat) : Except Err AgentInfo := do
  let a := s.agents addr
  let killable := a.alive && decide (epoch > a.lastHeartbeatEpoch + 1)
  let age := if a.birthEpoch = 0 then 0 else ageOf a
  let reward ←
    if a.birthEpoch = 0 then pure 0
    else if a.alive = false then pure a.claimable
    else do
      let base ← checkedSub (age * s.accRewardPerAge / PRECISION) a.rewardDebt
      pure (base + a.claimable)
  return { addr := addr, agentId := a.agentId, birthEpoch := a.birthEpoch
           lastHeartbeatEpoch := a.lastHeartbeatEpoch, alive := a.alive
           killable := killable, age := age, totalPaid := a.totalPaid
           pendingReward := reward }

/-- `getAgentList(startIndex, endIndex)`.  After the clamp, the source
computes the page length as `unchecked { endIndex - startIndex + 1 }` in
`uint256`.  For `startIndex ≤ endIndex` that is the genuine range length;
for `startIndex = endIndex + 1` (i.e. `startIndex = registry.length`,
since the clamp only lowers `endIndex` when `endIndex ≥ length`) the
subtraction wraps to exactly `0` and an empty page is returned with no
revert; and for any larger `startIndex` (with `startIndex < 2^256`) the
wrapped value is astronomic, so the array allocation — or, for a
near-`2^256` `startIndex`, the first wrapped-out-of-bounds registry read
of the loop — reverts with an EVM panic, embedded as `Err.ArithPanic`. -/
def getAgentList (s : State) (epoch startIndex endIndex : Nat) :
    Except Err (List AgentInfo) :=
  let len := s.registry.length
  if len = 0 then .ok []
  else if startIndex > endIndex then .error .InvalidRange
  else
    let endIndex := if endIndex ≥ len then len - 1 else endIndex
    if startIndex = endIndex + 1 then .ok []
    else if startIndex > endIndex + 1 then .error .ArithPanic
    else
      (List.range (endIndex - startIndex + 1)).mapM fun i =>
        agentInfoAt s epoch (s.registry.getD (startIndex + i) 0)

/-- `getKillable(startIndex, endIndex)`.  The source's two-pass
count-then-fill loop over the range produces exactly the killable
addresses of the range in registry order.  The `unchecked` range length
behaves as in `getAgentList`: it wraps to `0` (empty result, no revert)
exactly at `startIndex = registry.length`, and to an astronomic value —
reverting at the first out-of-bounds registry read — for any larger
`startIndex`, embedded as `Err.ArithPanic`. -/
def getKillable (s : State) (epoch startIndex endIndex : Nat) :
    Except Err (List Nat) :=
  let len := s.registry.length
  if len = 0 then .ok []
  else if startIndex > endIndex then .error .InvalidRange
  else
    let endIndex := if endIndex ≥ len then len - 1 else endIndex
    if startIndex = endIndex + 1 then .ok []
    else if startIndex > endIndex + 1 then .error .ArithPanic
    else
      .ok (((List.range (endIndex - startIndex + 1)).map fun i =>
              s.registry.getD (startIndex + i) 0).filter fun addr =>
            let a := s.agents addr
            a.alive && decide (epoch > a.lastHeartbeatEpoch + 1))

-- ─── Operations and traces ─────────────────────────────────────────────

/-- One external call to the contract.  `register` carries the identity
registry's `getAgentWallet` as observed during that call (the external
collaborator may change between calls). -/
inductive Op where
  | register (wallet : Nat → Nat) (sender agentId epoch : Nat)
  | heartbeat (sender epoch : Nat)
  | kill (target epoch : Nat)
  | claim (sender epoch : Nat)
  | claimTreasury (sender epoch : Nat)
  | transferTreasury (sender newTreasury epoch : Nat)

/-- The epoch (derived from `block.timestamp`) at which an operation runs. -/
def Op.epoch : Op → Nat
  | .register _ _ _ e => e
  | .heartbeat _ e => e
  | .kill _ e => e
  | .claim _ e => e
  | .claimTreasury _ e => e
  | .transferTreasury _ _ e => e

/-- Dispatch one call. -/
def step (c : Config) (op : Op) (s : State) : Except Err State :=
  match op with
  | .register wallet sender agentId epoch => register c wallet sender agentId epoch s
  | .heartbeat sender epoch => heartbeat c sender epoch s
  | .kill target epoch => kill target epoch s
  | .claim sender _ => claim sender s
  | .claimTreasury sender _ => claimTreasury sender s
  | .transferTreasury sender newTreasury _ => transferTreasury sender newTreasury s

/-- A reverted call leaves the state unchanged (all-or-nothing semantics). -/
def applyOp (c : Config) (s : State) (op : Op) : State :=
  match step c op s with
  | .ok s' => s'
  | .error _ => s

/-- Execute a call sequence from a freshly deployed contract. -/
def execTrace (c : Config) (deployer : Nat) (ops : List Op) : State :=
  ops.foldl (applyOp c) (initState deployer)

/-- Whether the caller of an operation is a plausible EVM sender
(not the zero address; `kill` is unconstrained since any caller works). -/
def Op.senderOk : Op → Bool
  | .register _ sender _ _ => sender != 0
  | .heartbeat sender _ => sender != 0
  | .kill _ _ => true
  | .claim sender _ => sender != 0
  | .claimTreasury sender _ => sender != 0
  | .transferTreasury sender _ _ => sender != 0

/-- Environment facts about a single call that hold on any real chain:
the sender is never the zero address, and the current epoch fits in 64 bits
and is at least 1 (a real `block.timestamp` is far above `EPOCH_DURATION`). -/
def ValidOp (op : Op) : Prop :=
  op.senderOk = true ∧ 1 ≤ op.epoch ∧ op.epoch < U64

instance : DecidablePred ValidOp := fun op =>
  inferInstanceAs (Decidable (op.senderOk = true ∧ 1 ≤ op.epoch ∧
    op.epoch < U64))

/-- Non-decreasing epoch sequence (computable form). -/
def epochsMono : List Nat → Bool
  | [] => true
  | [_] => true
  | a :: b :: t => decide (a ≤ b) && epochsMono (b :: t)

/-- A valid call sequence: every call valid, epochs non-decreasing
(timestamps are monotone). -/
def ValidTrace (ops : List Op) : Prop :=
  (∀ op ∈ ops, ValidOp op) ∧ epochsMono (ops.map Op.epoch) = true

instance : DecidablePred ValidTrace := fun ops =>
  inferInstanceAs (Decidable ((∀ op ∈ ops, ValidOp op) ∧
    epochsMono (ops.map Op.epoch) = true))

theorem chain'_of_epochsMono :
    ∀ l : List Nat, epochsMono l = true → l.Chain' (· ≤ ·)
  | [], _ => List.chain'_nil
  | [_], _ => List.chain'_singleton _
  | a :: b :: t, h => by
    simp only [epochsMono, Bool.and_eq_true, decide_eq_true_eq] at h
    exact List.chain'_cons.mpr ⟨h.1, chain'_of_epochsMono (b :: t) h.2⟩

-- ─── Coherence invariant ───────────────────────────────────────────────

/-- Sum of the age formula over the currently alive (flag) participants:
the quantity `totalAge` tracks incrementally. -/
def aliveAgeSum (s : State) : Nat :=
  (s.registry.map fun p =>
    if (s.agents p).alive then ageOf (s.agents p) else 0).sum

/-- The state invariant maintained by every operation (proved below):
registry/agents/accumulator coherence. -/
structure Coherent (s : State) : Prop where
  zero_not_reg : 0 ∉ s.registry
  nodup : s.registry.Nodup
  off_reg : ∀ p, p ∉ s.registry → s.agents p = Agent.empty
  birth_pos : ∀ p ∈ s.registry, (s.agents p).birthEpoch ≠ 0
  birth_le : ∀ p, (s.agents p).birthEpoch ≤ (s.agents p).lastHeartbeatEpoch
  debt_le : ∀ p, (s.agents p).alive = true →
    (s.agents p).rewardDebt ≤ ageOf (s.agents p) * s.accRewardPerAge / PRECISION
  age_sum : s.totalAge = aliveAgeSum s
  bind_ok : ∀ p ∈ s.registry, s.agentIdToAddr ((s.agents p).agentId) = p
  paid_le : ∀ p, (s.agents p).totalPaid ≤ s.totalIn

/-- Every agent's `lastHeartbeatEpoch` is at most `e` (the wall clock). -/
def ClockLe (e : Nat) (s : State) : Prop :=
  ∀ p, (s.agents p).lastHeartbeatEpoch ≤ e

theorem Coherent.mem_of_birth_pos {s : State} (h : Coherent s) {p : Nat}
    (hb : (s.agents p).birthEpoch ≠ 0) : p ∈ s.registry := by
  by_contra hmem
  rw [h.off_reg p hmem] at hb
  exact hb rfl

theorem Coherent.mem_of_alive {s : State} (h : Coherent s) {p : Nat}
    (ha : (s.agents p).alive = true) : p ∈ s.registry := by
  by_contra hmem
  rw [h.off_reg p hmem] at ha
  exact absurd ha (by simp [Agent.empty])

theorem coherent_init (deployer : Nat) : Coherent (initState deployer) := by
  constructor <;> simp [initState, aliveAgeSum, Agent.empty]

-- ─── List helper lemmas ────────────────────────────────────────────────

theorem sum_map_update (l : List Nat) (hn : l.Nodup) {x : Nat} (hx : x ∈ l)
    (f g : Nat → Nat) (hfg : ∀ p ∈ l, p ≠ x → f p = g p) :
    (l.map f).sum + g x = (l.map g).sum + f x := by
  have hperm := List.perm_cons_erase hx
  have hf : (l.map f).sum = f x + ((l.erase x).map f).sum := by
    simpa using (hperm.map f).sum_eq
  have hg : (l.map g).sum = g x + ((l.erase x).map g).sum := by
    simpa using (hperm.map g).sum_eq
  have heq : (l.erase x).map f = (l.erase x).map g := by
    apply List.map_congr_left
    intro p hp
    have hmem := (hn.mem_erase_iff).mp hp
    exact hfg p hmem.2 hmem.1
  rw [hf, hg, heq]
  omega

theorem sum_map_ext (l : List Nat) (f g : Nat → Nat)
    (hfg : ∀ p ∈ l, f p = g p) : (l.map f).sum = (l.map g).sum := by
  rw [List.map_congr_left hfg]

/-- `Σ (xᵢ / P) ≤ (Σ xᵢ) / P`. -/
theorem sum_div_le_div_sum (l : List Nat) (P : Nat) :
    (l.map fun x => x / P).sum ≤ l.sum / P := by
  induction l with
  | nil => simp
  | cons x t ih =>
    simp only [List.map_cons, List.sum_cons]
    calc x / P + (t.map fun x => x / P).sum ≤ x / P + t.sum / P := by omega
    _ ≤ (x + t.sum) / P := Nat.add_div_le_add_div _ _ _

/-- `(x + d) / P ≤ x / P + d / P + 1`. -/
theorem add_div_le (x d P : Nat) : (x + d) / P ≤ x / P + d / P + 1 := by
  rcases Nat.eq_zero_or_pos P with hP | hP
  · simp [hP]
  have hx := Nat.div_add_mod x P
  have hd := Nat.div_add_mod d P
  have hxm := Nat.mod_lt x hP
  have hdm := Nat.mod_lt d hP
  have hkey : x + d < (x / P + d / P + 2) * P := by
    have hexp : (x / P + d / P + 2) * P = P * (x / P) + P * (d / P) + 2 * P := by
      ring
    omega
  have := (Nat.div_lt_iff_lt_mul hP).mpr hkey
  omega

/-- `(Σ xᵢ) / P ≤ Σ (xᵢ / P) + (n - 1)` for a non-empty list (stated in
added form). -/
theorem div_sum_le_sum_div (l : List Nat) (P : Nat) (hne : l ≠ []) :
    l.sum / P + 1 ≤ (l.map fun x => x / P).sum + l.length := by
  induction l with
  | nil => exact absurd rfl hne
  | cons x t ih =>
    rcases List.eq_nil_or_concat t with ht | _
    · subst ht; simp
    · have htne : t ≠ [] := by
        rintro rfl
        simp_all
      have h1 := add_div_le x t.sum P
      have h2 := ih htne
      simp only [List.map_cons, List.sum_cons, List.length_cons]
      omega

-- ─── Inversion lemmas for the operations ───────────────────────────────

theorem checkedSub_ok {x y v : Nat} :
    checkedSub x y = .ok v ↔ y ≤ x ∧ v = x - y := by
  unfold checkedSub
  split <;> simp_all
  omega

theorem register_ok_iff {c : Config} {wallet : Nat → Nat}
    {sender agentId epoch : Nat} {s : State} {s' : State} :
    register c wallet sender agentId epoch s = .ok s' ↔
    wallet agentId = sender ∧
    (s.agentIdToAddr agentId = 0 ∨ s.agentIdToAddr agentId = sender) ∧
    (s.agents sender).alive = false ∧
    ((s.agents sender).birthEpoch = 0 ∨ (s.agents sender).agentId = agentId) ∧
    s' = registerEffect c sender agentId epoch s := by
  unfold register
  split_ifs with h1 h2 h3 h4
  all_goals simp_all
  all_goals tauto

theorem heartbeat_ok_iff {c : Config} {sender epoch : Nat} {s s' : State} :
    heartbeat c sender epoch s = .ok s' ↔
    (s.agents sender).birthEpoch ≠ 0 ∧
    (s.agents sender).alive = true ∧
    epoch ≠ (s.agents sender).lastHeartbeatEpoch ∧
    epoch ≤ (s.agents sender).lastHeartbeatEpoch + 1 ∧
    (s.agents sender).rewardDebt ≤
      ageOf (s.agents sender) * s.accRewardPerAge / PRECISION ∧
    s' = heartbeatEffect c sender epoch
      (ageOf (s.agents sender) * s.accRewardPerAge / PRECISION -
        (s.agents sender).rewardDebt) s := by
  unfold heartbeat checkedSub
  split_ifs with h1 h2 h3 h4 h5
  · exact iff_of_false (by simp) (fun h => h.1 h1)
  · exact iff_of_false (by simp) (fun h => by simp [h2] at h)
  · exact iff_of_false (by simp) (fun h => h.2.2.1 h3)
  · exact iff_of_false (by simp) (fun h => absurd h.2.2.2.1 (by omega))
  · rw [Bool.not_eq_false] at h2
    push_neg at h4
    simp only [Except.ok.injEq]
    constructor
    · intro h
      exact ⟨h1, h2, h3, h4, h5, h.symm⟩
    · intro h
      exact h.2.2.2.2.2.symm
  · exact iff_of_false (by simp) (fun h => h5 h.2.2.2.2.1)

theorem kill_ok_iff {target epoch : Nat} {s s' : State} :
    kill target epoch s = .ok s' ↔
    (s.agents target).birthEpoch ≠ 0 ∧
    (s.agents target).alive = true ∧
    (s.agents target).lastHeartbeatEpoch + 1 < epoch ∧
    (s.agents target).rewardDebt ≤
      ageOf (s.agents target) * s.accRewardPerAge / PRECISION ∧
    ageOf (s.agents target) ≤ s.totalAge ∧
    s' = killEffect target
      (ageOf (s.agents target) * s.accRewardPerAge / PRECISION -
        (s.agents target).rewardDebt)
      (s.totalAge - ageOf (s.agents target)) s := by
  unfold kill checkedSub
  split_ifs with h1 h2 h3 h4 h5
  · exact iff_of_false (by simp) (fun h => h.1 h1)
  · exact iff_of_false (by simp) (fun h => by simp [h2] at h)
  · exact iff_of_false (by simp) (fun h => absurd h.2.2.1 (by omega))
  · rw [Bool.not_eq_false] at h2
    push_neg at h3
    simp only [Except.ok.injEq]
    constructor
    · intro h
      exact ⟨h1, h2, h3, h4, h5, h.symm⟩
    · intro h
      exact h.2.2.2.2.2.symm
  · exact iff_of_false (by simp) (fun h => h5 h.2.2.2.2.1)
  · exact iff_of_false (by simp) (fun h => h4 h.2.2.2.1)


theorem claim_ok_iff {sender : Nat} {s s' : State} :
    claim sender s = .ok s' ↔
    (s.agents sender).birthEpoch ≠ 0 ∧
    (((s.agents sender).alive = true ∧
      (s.agents sender).rewardDebt ≤
        ageOf (s.agents sender) * s.accRewardPerAge / PRECISION ∧
      (ageOf (s.agents sender) * s.accRewardPerAge / PRECISION -
        (s.agents sender).rewardDebt) + (s.agents sender).claimable ≠ 0 ∧
      s' = claimEffectAlive sender s) ∨
     ((s.agents sender).alive = false ∧
      (s.agents sender).claimable ≠ 0 ∧
      s' = claimEffectDead sender s)) := by
  unfold claim checkedSub
  split_ifs with h1 h2 h3 hc4
  · exact iff_of_false (by simp) (fun h => h.1 h1)
  · -- alive, settlement subtraction succeeded: reduce the match
    split
    · rename_i e heq
      exact absurd heq (by simp)
    · rename_i base heq
      simp only [Except.ok.injEq] at heq
      subst heq
      split_ifs with h4
      · exact iff_of_false (by simp)
          (fun h => by
            rcases h.2 with h' | h'
            · exact h'.2.2.1 h4
            · exact absurd h'.1 (by simp [h2]))
      · simp only [Except.ok.injEq]
        constructor
        · intro h
          exact ⟨h1, Or.inl ⟨h2, h3, h4, h.symm⟩⟩
        · intro h
          rcases h.2 with h' | h'
          · exact h'.2.2.2.symm
          · exact absurd h'.1 (by simp [h2])
  · -- alive, settlement subtraction panics
    exact iff_of_false (by simp)
      (fun h => by
        rcases h.2 with h' | h'
        · exact h3 h'.2.1
        · exact absurd h'.1 (by simp [h2]))
  · -- dead, nothing to claim
    exact iff_of_false (by simp)
      (fun h => by
        rcases h.2 with h' | h'
        · exact h2 h'.1
        · exact h'.2.1 hc4)
  · -- dead, payout
    rw [Bool.not_eq_true] at h2
    simp only [Except.ok.injEq]
    constructor
    · intro h
      exact ⟨h1, Or.inr ⟨h2, hc4, h.symm⟩⟩
    · intro h
      rcases h.2 with h' | h'
      · exact absurd h'.1 (by simp [h2])
      · exact h'.2.2.symm

-- ─── Preservation of coherence ─────────────────────────────────────────

theorem coherent_register {c : Config} {wallet : Nat → Nat}
    {sender agentId epoch : Nat} {s s' : State}
    (hok : register c wallet sender agentId epoch s = .ok s')
    (hco : Coherent s) (hs0 : sender ≠ 0) (he1 : 1 ≤ epoch)
    (heU : epoch < U64) : Coherent s' := by
  obtain ⟨hw, hbind, halive, hid, hs'⟩ := register_ok_iff.mp hok
  have hmod : epoch % U64 = epoch := Nat.mod_eq_of_lt heU
  subst hs'
  by_cases hnew : (s.agents sender).birthEpoch = 0
  · -- first registration: sender appended to the registry
    have hnm : sender ∉ s.registry := fun hm => hco.birth_pos sender hm hnew
    refine ⟨?_, ?_, ?_, ?_, ?_, ?_, ?_, ?_, ?_⟩
    · simp only [registerEffect, if_pos hnew]
      simp [hco.zero_not_reg, Ne.symm hs0]
    · simp only [registerEffect, if_pos hnew]
      simp [List.nodup_append, hco.nodup, hnm]
    · intro p hp
      simp only [registerEffect, if_pos hnew] at hp ⊢
      simp only [List.mem_append, List.mem_singleton, not_or] at hp
      simp [hp.2, hco.off_reg p hp.1]
    · intro p hp
      simp only [registerEffect, if_pos hnew] at hp ⊢
      rcases List.mem_append.mp hp with hp | hp
      · have hps : p ≠ sender := fun h => hnm (h ▸ hp)
        simp [hps, hco.birth_pos p hp]
      · simp only [List.mem_singleton] at hp
        subst hp
        simp [registerAgent, hmod]
        omega
    · intro p
      simp only [registerEffect]
      by_cases hps : p = sender
      · simp [hps, registerAgent]
      · simp [hps, hco.birth_le p]
    · intro p
      simp only [registerEffect]
      by_cases hps : p = sender
      · simp [hps, registerAgent, ageOf]
      · simp only [if_neg hps]
        exact hco.debt_le p
    · simp only [registerEffect, if_pos hnew, aliveAgeSum]
      simp only [List.map_append, List.sum_append, List.map_singleton,
        List.sum_singleton, if_pos rfl]
      have h1 : ∀ p ∈ s.registry,
          (if (if p = sender then registerAgent c agentId epoch
                s.accRewardPerAge (s.agents sender).claimable
              else s.agents p).alive then
            ageOf (if p = sender then registerAgent c agentId epoch
                s.accRewardPerAge (s.agents sender).claimable
              else s.agents p)
          else 0) =
          (if (s.agents p).alive then ageOf (s.agents p) else 0) := by
        intro p hp
        have hps : p ≠ sender := fun h => hnm (h ▸ hp)
        simp [hps]
      rw [List.map_congr_left h1, ← aliveAgeSum, ← hco.age_sum]
      simp [registerAgent, ageOf]
    · intro p hp
      simp only [registerEffect, if_pos hnew] at hp ⊢
      rcases List.mem_append.mp hp with hp | hp
      · have hps : p ≠ sender := fun h => hnm (h ▸ hp)
        have hnid : (s.agents p).agentId ≠ agentId := by
          intro h
          have hbp := hco.bind_ok p hp
          rw [h] at hbp
          rcases hbind with h0 | hsen
          · rw [hbp] at h0
            exact hco.zero_not_reg (h0 ▸ hp)
          · rw [hbp] at hsen
            exact hps hsen
        simp [hps, hnid, hco.bind_ok p hp]
      · simp only [List.mem_singleton] at hp
        subst hp
        simp [registerAgent]
    · intro p
      simp only [registerEffect]
      by_cases hps : p = sender
      · simp only [if_pos hps]
        have h1 : (registerAgent c agentId epoch s.accRewardPerAge
            (s.agents sender).claimable).totalPaid ≤ c.costPerEpoch := by
          simp only [registerAgent, poolAmount]
          exact le_trans (Nat.mod_le _ _) (Nat.sub_le _ _)
        omega
      · simp only [if_neg hps]
        have := hco.paid_le p
        omega
  · -- re-registration of a dead agent: registry unchanged
    have hmem : sender ∈ s.registry := hco.mem_of_birth_pos hnew
    refine ⟨?_, ?_, ?_, ?_, ?_, ?_, ?_, ?_, ?_⟩
    · simp only [registerEffect, if_neg hnew]
      exact hco.zero_not_reg
    · simp only [registerEffect, if_neg hnew]
      exact hco.nodup
    · intro p hp
      simp only [registerEffect, if_neg hnew] at hp ⊢
      simp only [if_neg (show ¬ p = sender from fun h => hp (h ▸ hmem))]
      exact hco.off_reg p hp
    · intro p hp
      simp only [registerEffect, if_neg hnew] at hp ⊢
      by_cases hps : p = sender
      · simp [hps, registerAgent, hmod]
        omega
      · simp [hps, hco.birth_pos p hp]
    · intro p
      simp only [registerEffect]
      by_cases hps : p = sender
      · simp [hps, registerAgent]
      · simp [hps, hco.birth_le p]
    · intro p
      simp only [registerEffect]
      by_cases hps : p = sender
      · simp [hps, registerAgent, ageOf]
      · simp only [if_neg hps]
        exact hco.debt_le p
    · simp only [registerEffect, if_neg hnew, aliveAgeSum]
      have hupd := sum_map_update s.registry hco.nodup hmem
        (fun p =>
          if (if p = sender then registerAgent c agentId epoch
                s.accRewardPerAge (s.agents sender).claimable
              else s.agents p).alive then
            ageOf (if p = sender then registerAgent c agentId epoch
                s.accRewardPerAge (s.agents sender).claimable
              else s.agents p)
          else 0)
        (fun p => if (s.agents p).alive then ageOf (s.agents p) else 0)
        (fun p _ hps => by simp [hps])
      simp only [if_pos rfl, halive] at hupd
      rw [show s.totalAge = aliveAgeSum s from hco.age_sum]
      simp only [aliveAgeSum] at hupd ⊢
      simp only [registerAgent, ageOf] at hupd ⊢
      simp at hupd
      omega
    · intro p hp
      simp only [registerEffect, if_neg hnew] at hp ⊢
      by_cases hps : p = sender
      · simp only [if_pos hps, hps]
        have hideq : (s.agents sender).agentId = agentId := by
          rcases hid with h | h
          · exact absurd h hnew
          · exact h
        have hbo := hco.bind_ok sender hmem
        rw [hideq] at hbo
        simpa [registerAgent] using hbo
      · simp only [if_neg hps]
        exact hco.bind_ok p hp
    · intro p
      simp only [registerEffect]
      by_cases hps : p = sender
      · simp only [if_pos hps]
        have h1 : (registerAgent c agentId epoch s.accRewardPerAge
            (s.agents sender).claimable).totalPaid ≤ c.costPerEpoch := by
          simp only [registerAgent, poolAmount]
          exact le_trans (Nat.mod_le _ _) (Nat.sub_le _ _)
        omega
      · simp only [if_neg hps]
        have := hco.paid_le p
        omega

theorem coherent_heartbeat {c : Config} {sender epoch : Nat} {s s' : State}
    (hok : heartbeat c sender epoch s = .ok s')
    (hco : Coherent s)
    (hclk : (s.agents sender).lastHeartbeatEpoch ≤ epoch)
    (heU : epoch < U64) : Coherent s' := by
  obtain ⟨hb0, halive, hne, hle, hdebt, hs'⟩ := heartbeat_ok_iff.mp hok
  have hmem : sender ∈ s.registry := hco.mem_of_birth_pos hb0
  have hmod : epoch % U64 = epoch := Nat.mod_eq_of_lt heU
  have hstep : epoch = (s.agents sender).lastHeartbeatEpoch + 1 := by omega
  have hble : (s.agents sender).birthEpoch ≤
      (s.agents sender).lastHeartbeatEpoch := hco.birth_le sender
  subst hs'
  set pd := ageOf (s.agents sender) * s.accRewardPerAge / PRECISION -
    (s.agents sender).rewardDebt with hpd
  set HA := heartbeatAgent c epoch pd s.accRewardPerAge (s.agents sender)
    with hHA
  have e1 : HA.birthEpoch = (s.agents sender).birthEpoch := rfl
  have e2 : HA.lastHeartbeatEpoch = epoch % U64 := rfl
  have e3 : HA.alive = (s.agents sender).alive := rfl
  have e4 : HA.rewardDebt =
      (ageOf (s.agents sender) + 1) * s.accRewardPerAge / PRECISION := rfl
  have e5 : HA.totalPaid =
      ((s.agents sender).totalPaid + poolAmount c) % U96 := rfl
  have e6 : HA.agentId = (s.agents sender).agentId := rfl
  have hage : ageOf HA = ageOf (s.agents sender) + 1 := by
    simp only [ageOf, e1, e2, hmod]
    omega
  have halive' : HA.alive = true := by rw [e3, halive]
  refine ⟨?_, ?_, ?_, ?_, ?_, ?_, ?_, ?_, ?_⟩
  · simp only [heartbeatEffect]
    exact hco.zero_not_reg
  · simp only [heartbeatEffect]
    exact hco.nodup
  · intro p hp
    simp only [heartbeatEffect] at hp ⊢
    simp only [if_neg (show ¬ p = sender from fun h => hp (h ▸ hmem))]
    exact hco.off_reg p hp
  · intro p hp
    simp only [heartbeatEffect] at hp ⊢
    by_cases hps : p = sender
    · rw [hps, if_pos rfl, e1]
      exact hco.birth_pos sender hmem
    · rw [if_neg hps]
      exact hco.birth_pos p hp
  · intro p
    simp only [heartbeatEffect]
    by_cases hps : p = sender
    · rw [hps, if_pos rfl, e1, e2]
      omega
    · rw [if_neg hps]
      exact hco.birth_le p
  · intro p
    simp only [heartbeatEffect]
    by_cases hps : p = sender
    · rw [hps, if_pos rfl]
      intro _
      rw [e4, hage]
    · rw [if_neg hps]
      exact hco.debt_le p
  · simp only [heartbeatEffect, aliveAgeSum]
    have hupd := sum_map_update s.registry hco.nodup hmem
      (fun p => if (if p = sender then HA else s.agents p).alive then
        ageOf (if p = sender then HA else s.agents p) else 0)
      (fun p => if (s.agents p).alive then ageOf (s.agents p) else 0)
      (fun p _ hps => by simp [hps])
    simp only [if_pos rfl, halive, halive', if_true, hage] at hupd
    rw [show s.totalAge = aliveAgeSum s from hco.age_sum]
    simp only [aliveAgeSum] at hupd ⊢
    rw [← hHA]
    omega
  · intro p hp
    simp only [heartbeatEffect] at hp ⊢
    by_cases hps : p = sender
    · rw [hps, if_pos rfl, e6]
      exact hco.bind_ok sender hmem
    · rw [if_neg hps]
      exact hco.bind_ok p hp
  · intro p
    simp only [heartbeatEffect]
    by_cases hps : p = sender
    · rw [hps, if_pos rfl, e5]
      have h1 := hco.paid_le sender
      have h2 : ((s.agents sender).totalPaid + poolAmount c) % U96 ≤
          (s.agents sender).totalPaid + poolAmount c := Nat.mod_le _ _
      have h3 : poolAmount c ≤ c.costPerEpoch := Nat.sub_le _ _
      omega
    · rw [if_neg hps]
      have := hco.paid_le p
      omega

theorem coherent_kill {target epoch : Nat} {s s' : State}
    (hok : kill target epoch s = .ok s')
    (hco : Coherent s) : Coherent s' := by
  obtain ⟨hb0, halive, hkb, hdebt, hageLe, hs'⟩ := kill_ok_iff.mp hok
  have hmem : target ∈ s.registry := hco.mem_of_birth_pos hb0
  subst hs'
  set pd := ageOf (s.agents target) * s.accRewardPerAge / PRECISION -
    (s.agents target).rewardDebt with hpd
  set nt := s.totalAge - ageOf (s.agents target) with hnt
  have k1 : (killAgent pd nt (s.agents target)).birthEpoch =
      (s.agents target).birthEpoch := rfl
  have k3 : (killAgent pd nt (s.agents target)).alive = false := rfl
  have k4 : (killAgent pd nt (s.agents target)).agentId =
      (s.agents target).agentId := rfl
  have k5 : (killAgent pd nt (s.agents target)).totalPaid =
      (s.agents target).totalPaid := rfl
  have kage : ageOf (killAgent pd nt (s.agents target)) =
      ageOf (s.agents target) := rfl
  refine ⟨?_, ?_, ?_, ?_, ?_, ?_, ?_, ?_, ?_⟩
  · simp only [killEffect]
    exact hco.zero_not_reg
  · simp only [killEffect]
    exact hco.nodup
  · intro p hp
    simp only [killEffect] at hp ⊢
    simp only [if_neg (show ¬ p = target from fun h => hp (h ▸ hmem))]
    exact hco.off_reg p hp
  · intro p hp
    simp only [killEffect] at hp ⊢
    by_cases hps : p = target
    · rw [hps, if_pos rfl, k1]
      exact hco.birth_pos target hmem
    · rw [if_neg hps]
      exact hco.birth_pos p hp
  · intro p
    simp only [killEffect]
    by_cases hps : p = target
    · rw [hps, if_pos rfl]
      exact hco.birth_le target
    · rw [if_neg hps]
      exact hco.birth_le p
  · intro p
    simp only [killEffect]
    by_cases hps : p = target
    · rw [hps, if_pos rfl, k3]
      intro h
      exact absurd h (by simp)
    · rw [if_neg hps]
      intro hal
      refine le_trans (hco.debt_le p hal) ?_
      apply Nat.div_le_div_right
      apply Nat.mul_le_mul_left
      split
      · exact Nat.le_add_right _ _
      · exact le_refl _
  · simp only [killEffect, aliveAgeSum]
    have hupd := sum_map_update s.registry hco.nodup hmem
      (fun p => if (if p = target then killAgent pd nt (s.agents target)
          else s.agents p).alive then
        ageOf (if p = target then killAgent pd nt (s.agents target)
          else s.agents p) else 0)
      (fun p => if (s.agents p).alive then ageOf (s.agents p) else 0)
      (fun p _ hps => by simp [hps])
    simp only [if_pos rfl, halive, if_true, k3, Bool.false_eq_true, if_false]
      at hupd
    have hsum := hco.age_sum
    simp only [aliveAgeSum] at hupd hsum ⊢
    omega
  · intro p hp
    simp only [killEffect] at hp ⊢
    by_cases hps : p = target
    · rw [hps, if_pos rfl, k4]
      exact hco.bind_ok target hmem
    · rw [if_neg hps]
      exact hco.bind_ok p hp
  · intro p
    simp only [killEffect]
    by_cases hps : p = target
    · rw [hps, if_pos rfl, k5]
      exact hco.paid_le target
    · rw [if_neg hps]
      exact hco.paid_le p

theorem coherent_claim {sender : Nat} {s s' : State}
    (hok : claim sender s = .ok s')
    (hco : Coherent s) : Coherent s' := by
  obtain ⟨hb0, hcase⟩ := claim_ok_iff.mp hok
  have hmem : sender ∈ s.registry := hco.mem_of_birth_pos hb0
  rcases hcase with ⟨halive, hdebt, hpay, hs'⟩ | ⟨hdead, hpay, hs'⟩
  · -- alive branch
    subst hs'
    have c1 : (claimAgentAlive s.accRewardPerAge (s.agents sender)).birthEpoch =
        (s.agents sender).birthEpoch := rfl
    have c2 : (claimAgentAlive s.accRewardPerAge (s.agents sender)).alive =
        (s.agents sender).alive := rfl
    have c3 : (claimAgentAlive s.accRewardPerAge (s.agents sender)).agentId =
        (s.agents sender).agentId := rfl
    have c4 : (claimAgentAlive s.accRewardPerAge (s.agents sender)).totalPaid =
        (s.agents sender).totalPaid := rfl
    have c5 : (claimAgentAlive s.accRewardPerAge
        (s.agents sender)).lastHeartbeatEpoch =
        (s.agents sender).lastHeartbeatEpoch := rfl
    have c6 : (claimAgentAlive s.accRewardPerAge (s.agents sender)).rewardDebt =
        ageOf (s.agents sender) * s.accRewardPerAge / PRECISION := rfl
    have cage : ageOf (claimAgentAlive s.accRewardPerAge (s.agents sender)) =
        ageOf (s.agents sender) := rfl
    refine ⟨?_, ?_, ?_, ?_, ?_, ?_, ?_, ?_, ?_⟩
    · simp only [claimEffectAlive]
      exact hco.zero_not_reg
    · simp only [claimEffectAlive]
      exact hco.nodup
    · intro p hp
      simp only [claimEffectAlive] at hp ⊢
      simp only [if_neg (show ¬ p = sender from fun h => hp (h ▸ hmem))]
      exact hco.off_reg p hp
    · intro p hp
      simp only [claimEffectAlive] at hp ⊢
      by_cases hps : p = sender
      · rw [hps, if_pos rfl, c1]
        exact hco.birth_pos sender hmem
      · rw [if_neg hps]
        exact hco.birth_pos p hp
    · intro p
      simp only [claimEffectAlive]
      by_cases hps : p = sender
      · rw [hps, if_pos rfl]
        exact hco.birth_le sender
      · rw [if_neg hps]
        exact hco.birth_le p
    · intro p
      simp only [claimEffectAlive]
      by_cases hps : p = sender
      · rw [hps, if_pos rfl]
        intro _
        rw [c6, cage]
      · rw [if_neg hps]
        exact hco.debt_le p
    · simp only [claimEffectAlive, aliveAgeSum]
      rw [show s.totalAge = aliveAgeSum s from hco.age_sum]
      simp only [aliveAgeSum]
      apply sum_map_ext
      intro p hp
      by_cases hps : p = sender
      · rw [hps, if_pos rfl, c2, cage]
      · rw [if_neg hps]
    · intro p hp
      simp only [claimEffectAlive] at hp ⊢
      by_cases hps : p = sender
      · rw [hps, if_pos rfl, c3]
        exact hco.bind_ok sender hmem
      · rw [if_neg hps]
        exact hco.bind_ok p hp
    · intro p
      simp only [claimEffectAlive]
      by_cases hps : p = sender
      · rw [hps, if_pos rfl, c4]
        exact hco.paid_le sender
      · rw [if_neg hps]
        exact hco.paid_le p
  · -- dead branch
    subst hs'
    have c1 : (claimAgentDead (s.agents sender)).birthEpoch =
        (s.agents sender).birthEpoch := rfl
    have c2 : (claimAgentDead (s.agents sender)).alive =
        (s.agents sender).alive := rfl
    have c3 : (claimAgentDead (s.agents sender)).agentId =
        (s.agents sender).agentId := rfl
    have c4 : (claimAgentDead (s.agents sender)).totalPaid =
        (s.agents sender).totalPaid := rfl
    have c6 : (claimAgentDead (s.agents sender)).rewardDebt =
        (s.agents sender).rewardDebt := rfl
    have cage : ageOf (claimAgentDead (s.agents sender)) =
        ageOf (s.agents sender) := rfl
    refine ⟨?_, ?_, ?_, ?_, ?_, ?_, ?_, ?_, ?_⟩
    · simp only [claimEffectDead]
      exact hco.zero_not_reg
    · simp only [claimEffectDead]
      exact hco.nodup
    · intro p hp
      simp only [claimEffectDead] at hp ⊢
      simp only [if_neg (show ¬ p = sender from fun h => hp (h ▸ hmem))]
      exact hco.off_reg p hp
    · intro p hp
      simp only [claimEffectDead] at hp ⊢
      by_cases hps : p = sender
      · rw [hps, if_pos rfl, c1]
        exact hco.birth_pos sender hmem
      · rw [if_neg hps]
        exact hco.birth_pos p hp
    · intro p
      simp only [claimEffectDead]
      by_cases hps : p = sender
      · rw [hps, if_pos rfl]
        exact hco.birth_le sender
      · rw [if_neg hps]
        exact hco.birth_le p
    · intro p
      simp only [claimEffectDead]
      by_cases hps : p = sender
      · rw [hps, if_pos rfl, c2]
        intro h
        rw [hdead] at h
        exact absurd h (by simp)
      · rw [if_neg hps]
        exact hco.debt_le p
    · simp only [claimEffectDead, aliveAgeSum]
      rw [show s.totalAge = aliveAgeSum s from hco.age_sum]
      simp only [aliveAgeSum]
      apply sum_map_ext
      intro p hp
      by_cases hps : p = sender
      · rw [hps, if_pos rfl, c2, cage]
      · rw [if_neg hps]
    · intro p hp
      simp only [claimEffectDead] at hp ⊢
      by_cases hps : p = sender
      · rw [hps, if_pos rfl, c3]
        exact hco.bind_ok sender hmem
      · rw [if_neg hps]
        exact hco.bind_ok p hp
    · intro p
      simp only [claimEffectDead]
      by_cases hps : p = sender
      · rw [hps, if_pos rfl, c4]
        exact hco.paid_le sender
      · rw [if_neg hps]
        exact hco.paid_le p

theorem coherent_claimTreasury {sender : Nat} {s s' : State}
    (hok : claimTreasury sender s = .ok s')
    (hco : Coherent s) : Coherent s' := by
  unfold claimTreasury at hok
  split_ifs at hok with h1 h2
  simp only [Except.ok.injEq] at hok
  subst hok
  exact ⟨hco.zero_not_reg, hco.nodup, hco.off_reg, hco.birth_pos,
      hco.birth_le, hco.debt_le, hco.age_sum, hco.bind_ok, hco.paid_le⟩

theorem coherent_transferTreasury {sender newTreasury : Nat} {s s' : State}
    (hok : transferTreasury sender newTreasury s = .ok s')
    (hco : Coherent s) : Coherent s' := by
  unfold transferTreasury at hok
  split_ifs at hok with h1 h2
  simp only [Except.ok.injEq] at hok
  subst hok
  exact ⟨hco.zero_not_reg, hco.nodup, hco.off_reg, hco.birth_pos,
      hco.birth_le, hco.debt_le, hco.age_sum, hco.bind_ok, hco.paid_le⟩

theorem clockLe_mono {e e' : Nat} {s : State} (h : ClockLe e s)
    (he : e ≤ e') : ClockLe e' s :=
  fun p => le_trans (h p) he

theorem applyOp_eq_of_ok {c : Config} {s s1 : State} {op : Op}
    (h : step c op s = .ok s1) : applyOp c s op = s1 := by
  unfold applyOp
  rw [h]

theorem applyOp_eq_of_error {c : Config} {s : State} {op : Op} {e : Err}
    (h : step c op s = .error e) : applyOp c s op = s := by
  unfold applyOp
  rw [h]

theorem coherent_applyOp {c : Config} {op : Op} {s : State} {e : Nat}
    (hco : Coherent s) (hcl : ClockLe e s) (hv : ValidOp op)
    (he : e ≤ op.epoch) :
    Coherent (applyOp c s op) ∧ ClockLe op.epoch (applyOp c s op) := by
  cases op with
  | register wallet sender agentId epoch =>
    obtain ⟨hs0, he1, heU⟩ := hv
    simp only [Op.epoch] at he he1 heU
    cases hstep : register c wallet sender agentId epoch s with
    | error err =>
      have ha : applyOp c s (Op.register wallet sender agentId epoch) = s := applyOp_eq_of_error hstep
      rw [ha]
      exact ⟨hco, clockLe_mono hcl he⟩
    | ok s1 =>
      have ha : applyOp c s (Op.register wallet sender agentId epoch) = s1 := applyOp_eq_of_ok hstep
      rw [ha]
      refine ⟨coherent_register hstep hco (by simpa [Op.senderOk] using hs0)
        he1 heU, ?_⟩
      obtain ⟨_, _, _, _, hs1⟩ := register_ok_iff.mp hstep
      subst hs1
      intro p
      simp only [registerEffect]
      by_cases hps : p = sender
      · rw [hps, if_pos rfl]
        have hlhb : (registerAgent c agentId epoch s.accRewardPerAge
            (s.agents sender).claimable).lastHeartbeatEpoch = epoch % U64 :=
          rfl
        rw [hlhb, Nat.mod_eq_of_lt heU]
        exact Nat.le_refl epoch
      · rw [if_neg hps]
        exact le_trans (hcl p) he
  | heartbeat sender epoch =>
    obtain ⟨hs0, he1, heU⟩ := hv
    simp only [Op.epoch] at he he1 heU
    cases hstep : heartbeat c sender epoch s with
    | error err =>
      have ha : applyOp c s (Op.heartbeat sender epoch) = s := applyOp_eq_of_error hstep
      rw [ha]
      exact ⟨hco, clockLe_mono hcl he⟩
    | ok s1 =>
      have ha : applyOp c s (Op.heartbeat sender epoch) = s1 := applyOp_eq_of_ok hstep
      rw [ha]
      have hclk : (s.agents sender).lastHeartbeatEpoch ≤ epoch :=
        le_trans (hcl sender) he
      refine ⟨coherent_heartbeat hstep hco hclk heU, ?_⟩
      obtain ⟨_, _, _, _, _, hs1⟩ := heartbeat_ok_iff.mp hstep
      subst hs1
      intro p
      simp only [heartbeatEffect]
      by_cases hps : p = sender
      · rw [hps, if_pos rfl]
        have hlhb : (heartbeatAgent c epoch
            (ageOf (s.agents sender) * s.accRewardPerAge / PRECISION -
              (s.agents sender).rewardDebt) s.accRewardPerAge
            (s.agents sender)).lastHeartbeatEpoch = epoch % U64 := rfl
        rw [hlhb, Nat.mod_eq_of_lt heU]
        exact Nat.le_refl epoch
      · rw [if_neg hps]
        exact le_trans (hcl p) he
  | kill target epoch =>
    obtain ⟨-, he1, heU⟩ := hv
    simp only [Op.epoch] at he he1 heU
    cases hstep : kill target epoch s with
    | error err =>
      have ha : applyOp c s (Op.kill target epoch) = s := applyOp_eq_of_error hstep
      rw [ha]
      exact ⟨hco, clockLe_mono hcl he⟩
    | ok s1 =>
      have ha : applyOp c s (Op.kill target epoch) = s1 := applyOp_eq_of_ok hstep
      rw [ha]
      refine ⟨coherent_kill hstep hco, ?_⟩
      obtain ⟨_, _, _, _, _, hs1⟩ := kill_ok_iff.mp hstep
      subst hs1
      intro p
      simp only [killEffect]
      by_cases hps : p = target
      · rw [hps, if_pos rfl]
        have hlhb : (killAgent
            (ageOf (s.agents target) * s.accRewardPerAge / PRECISION -
              (s.agents target).rewardDebt)
            (s.totalAge - ageOf (s.agents target))
            (s.agents target)).lastHeartbeatEpoch =
            (s.agents target).lastHeartbeatEpoch := rfl
        rw [hlhb]
        exact le_trans (hcl target) he
      · rw [if_neg hps]
        exact le_trans (hcl p) he
  | claim sender epoch =>
    obtain ⟨hs0, he1, heU⟩ := hv
    simp only [Op.epoch] at he he1 heU
    cases hstep : claim sender s with
    | error err =>
      have ha : applyOp c s (Op.claim sender epoch) = s := applyOp_eq_of_error hstep
      rw [ha]
      exact ⟨hco, clockLe_mono hcl he⟩
    | ok s1 =>
      have ha : applyOp c s (Op.claim sender epoch) = s1 := applyOp_eq_of_ok hstep
      rw [ha]
      refine ⟨coherent_claim hstep hco, ?_⟩
      obtain ⟨-, hcase⟩ := claim_ok_iff.mp hstep
      rcases hcase with ⟨-, -, -, hs1⟩ | ⟨-, -, hs1⟩ <;>
        subst hs1 <;>
        intro p <;>
        first
        | (simp only [claimEffectAlive]
           by_cases hps : p = sender
           · rw [hps, if_pos rfl]
             exact le_trans (hcl sender) he
           · rw [if_neg hps]
             exact le_trans (hcl p) he)
        | (simp only [claimEffectDead]
           by_cases hps : p = sender
           · rw [hps, if_pos rfl]
             exact le_trans (hcl sender) he
           · rw [if_neg hps]
             exact le_trans (hcl p) he)
  | claimTreasury sender epoch =>
    obtain ⟨hs0, he1, heU⟩ := hv
    simp only [Op.epoch] at he he1 heU
    cases hstep : claimTreasury sender s with
    | error err =>
      have ha : applyOp c s (Op.claimTreasury sender epoch) = s := applyOp_eq_of_error hstep
      rw [ha]
      exact ⟨hco, clockLe_mono hcl he⟩
    | ok s1 =>
      have ha : applyOp c s (Op.claimTreasury sender epoch) = s1 := applyOp_eq_of_ok hstep
      rw [ha]
      refine ⟨coherent_claimTreasury hstep hco, ?_⟩
      unfold claimTreasury at hstep
      split_ifs at hstep
      simp only [Except.ok.injEq] at hstep
      subst hstep
      intro p
      exact le_trans (hcl p) he
  | transferTreasury sender newTreasury epoch =>
    obtain ⟨hs0, he1, heU⟩ := hv
    simp only [Op.epoch] at he he1 heU
    cases hstep : transferTreasury sender newTreasury s with
    | error err =>
      have ha : applyOp c s (Op.transferTreasury sender newTreasury epoch) =
          s := applyOp_eq_of_error hstep
      rw [ha]
      exact ⟨hco, clockLe_mono hcl he⟩
    | ok s1 =>
      have ha : applyOp c s (Op.transferTreasury sender newTreasury epoch) =
          s1 := applyOp_eq_of_ok hstep
      rw [ha]
      refine ⟨coherent_transferTreasury hstep hco, ?_⟩
      unfold transferTreasury at hstep
      split_ifs at hstep
      simp only [Except.ok.injEq] at hstep
      subst hstep
      intro p
      exact le_trans (hcl p) he

theorem chain_zero_of_chain' (l : List Nat) (h : l.Chain' (· ≤ ·)) :
    List.Chain (· ≤ ·) 0 l := by
  cases l with
  | nil => exact List.Chain.nil
  | cons a t => exact List.Chain.cons (Nat.zero_le a) h

theorem coherent_fold (c : Config) (ops : List Op) :
    ∀ (s : State) (e : Nat), Coherent s → ClockLe e s →
    (∀ op ∈ ops, ValidOp op) →
    List.Chain (· ≤ ·) e (ops.map Op.epoch) →
    Coherent (ops.foldl (applyOp c) s) ∧
    ClockLe ((ops.map Op.epoch).foldl max e) (ops.foldl (applyOp c) s) := by
  induction ops with
  | nil =>
    intro s e hco hcl _ _
    exact ⟨hco, hcl⟩
  | cons op rest ih =>
    intro s e hco hcl hval hch
    simp only [List.map_cons] at hch
    cases hch with
    | cons hee hch' =>
      have hone := coherent_applyOp (c := c) hco hcl
        (hval op (List.mem_cons_self op rest)) hee
      have hrec := ih (applyOp c s op) op.epoch hone.1 hone.2
        (fun o ho => hval o (List.mem_cons_of_mem op ho)) hch'
      simp only [List.foldl_cons, List.map_cons]
      refine ⟨hrec.1, ?_⟩
      have hmax : (rest.map Op.epoch).foldl max op.epoch =
          (rest.map Op.epoch).foldl max (max e op.epoch) := by
        rw [max_eq_right hee]
      rw [← hmax]
      exact hrec.2

/-- Every state reachable by a valid trace satisfies the coherence
invariant. -/
theorem coherent_execTrace {c : Config} {deployer : Nat} {ops : List Op}
    (hv : ValidTrace ops) : Coherent (execTrace c deployer ops) := by
  obtain ⟨hval, hch⟩ := hv
  have hcl : ClockLe 0 (initState deployer) := fun p => Nat.le_refl 0
  exact (coherent_fold c ops (initState deployer) 0 (coherent_init deployer)
    hcl hval (chain_zero_of_chain' _ (chain'_of_epochsMono _ hch))).1

-- ─── Concrete fixtures for witnesses and counterexamples ──────────────

/-- A sample configuration: 60-second epochs, 10000 units per epoch. -/
def cfgFix : Config := ⟨60, 10000⟩

/-- A sample identity registry: agent id `i` is owned by address `i + 100`. -/
def walletFix : Nat → Nat := fun agentId => agentId + 100

/-- Two agents register at epoch 1; agent 101 is killed at epoch 3 leaving
102 the sole survivor. -/
def traceA : List Op :=
  [.register walletFix 101 1 1, .register walletFix 102 2 1, .kill 101 3]

/-- The state after `traceA`. -/
def stateA : State := execTrace cfgFix 9 traceA

-- ─── C5: grace window ──────────────────────────────────────────────────

/-- C5: a participant who registers at epoch `e` and never heartbeats is
`isAlive` (and not `isKillable`) at epochs `e` and `e+1`; from `e+2` onward
`isAlive` is false, `isKillable` is true, and `kill` on them never fails
with `NotDeadYet` (for `e ≥ 1` it outright succeeds). -/
theorem claim_C5 {c : Config} {wallet : Nat → Nat}
    {sender agentId e : Nat} {s s1 : State}
    (hok : register c wallet sender agentId e s = .ok s1)
    (heU : e < U64) :
    isAlive s1 e sender = true ∧ isAlive s1 (e + 1) sender = true ∧
    isKillable s1 e sender = false ∧ isKillable s1 (e + 1) sender = false ∧
    ∀ e', e + 2 ≤ e' →
      isAlive s1 e' sender = false ∧
      isKillable s1 e' sender = true ∧
      kill sender e' s1 ≠ .error Err.NotDeadYet ∧
      (1 ≤ e → ∃ s2, kill sender e' s1 = .ok s2) := by
  obtain ⟨hw, hbind, halive, hid, hs1⟩ := register_ok_iff.mp hok
  have hmod : e % U64 = e := Nat.mod_eq_of_lt heU
  have hag : s1.agents sender =
      registerAgent c agentId e s.accRewardPerAge
        (s.agents sender).claimable := by
    subst hs1
    simp [registerEffect]
  have hbirth : (s1.agents sender).birthEpoch = e := by rw [hag]; exact hmod
  have hlhb : (s1.agents sender).lastHeartbeatEpoch = e := by
    rw [hag]; exact hmod
  have halive1 : (s1.agents sender).alive = true := by rw [hag]; rfl
  have hdebt1 : (s1.agents sender).rewardDebt =
      s.accRewardPerAge / PRECISION := by rw [hag]; rfl
  have hage1 : ageOf (s1.agents sender) = 1 := by
    simp [ageOf, hbirth, hlhb]
  have hacc1 : s1.accRewardPerAge = s.accRewardPerAge := by
    subst hs1; rfl
  have htage : s1.totalAge = s.totalAge + 1 := by
    subst hs1; rfl
  refine ⟨?_, ?_, ?_, ?_, ?_⟩
  · simp [isAlive, halive1, hlhb]
  · simp [isAlive, halive1, hlhb]
  · simp [isKillable, hlhb]
  · simp [isKillable, hlhb]
  · intro e' he'
    refine ⟨?_, ?_, ?_, ?_⟩
    · simp [isAlive, hlhb]
      omega
    · simp [isKillable, halive1, hlhb]
      omega
    · unfold kill
      by_cases hb0 : (s1.agents sender).birthEpoch = 0
      · rw [if_pos hb0]
        simp
      · rw [if_neg hb0, if_neg (by simp [halive1]),
          if_neg (by rw [hlhb]; omega)]
        rw [hage1, hdebt1, hacc1]
        unfold checkedSub
        rw [if_pos (by rw [one_mul])]
        rw [if_pos (by rw [htage]; omega)]
        simp
    · intro he1
      exact ⟨_, kill_ok_iff.mpr
        ⟨by rw [hbirth]; omega,
         halive1,
         by rw [hlhb]; omega,
         by rw [hdebt1, hage1, one_mul, hacc1],
         by rw [hage1, htage]; omega,
         rfl⟩⟩

/-- C5 witness: concrete instantiation at `e = 1`. -/
theorem claim_C5_witness :
    isAlive (registerEffect cfgFix 101 1 1 (initState 9)) 2 101 = true ∧
    isKillable (registerEffect cfgFix 101 1 1 (initState 9)) 3 101 = true := by
  have h := @claim_C5 cfgFix walletFix 101 1 1 (initState 9)
    (registerEffect cfgFix 101 1 1 (initState 9)) rfl (by decide)
  exact ⟨h.2.1, (h.2.2.2.2 3 (by decide)).2.1⟩

-- ─── C6: fee split ─────────────────────────────────────────────────────

/-- C6: every accepted `register` and `heartbeat` splits the payment at the
fixed `TREASURY_BPS / BPS_DENOMINATOR` proportion — the fee accrues to
`treasuryBalance` and the remainder to the participant's `totalPaid`;
`treasuryBalance` is claimable only by the `treasury` wallet via
`claimTreasury`; and `kill` redistributes exactly the `totalPaid` portion
into the reward accumulator. -/
theorem claim_C6 {c : Config} (hc : c.valid) :
    (∀ wallet sender agentId epoch s s1,
      register c wallet sender agentId epoch s = .ok s1 →
      s1.treasuryBalance = s.treasuryBalance +
        c.costPerEpoch * TREASURY_BPS / BPS_DENOMINATOR ∧
      (s1.agents sender).totalPaid = c.costPerEpoch -
        c.costPerEpoch * TREASURY_BPS / BPS_DENOMINATOR ∧
      s1.totalIn = s.totalIn + c.costPerEpoch) ∧
    (∀ sender epoch s s1,
      heartbeat c sender epoch s = .ok s1 →
      (s.agents sender).totalPaid + poolAmount c < U96 →
      s1.treasuryBalance = s.treasuryBalance +
        c.costPerEpoch * TREASURY_BPS / BPS_DENOMINATOR ∧
      (s1.agents sender).totalPaid = (s.agents sender).totalPaid +
        (c.costPerEpoch - c.costPerEpoch * TREASURY_BPS / BPS_DENOMINATOR) ∧
      s1.totalIn = s.totalIn + c.costPerEpoch) ∧
    (∀ sender (s : State), sender ≠ s.treasury →
      claimTreasury sender s = .error Err.NotTreasury) ∧
    (∀ sender s s1, claimTreasury sender s = .ok s1 →
      sender = s.treasury ∧ s1.treasuryBalance = 0 ∧
      s1.totalOut = s.totalOut + s.treasuryBalance) ∧
    (∀ target epoch s s1,
      kill target epoch s = .ok s1 →
      0 < s.totalAge - ageOf (s.agents target) →
      s1.accRewardPerAge = s.accRewardPerAge +
        (s.agents target).totalPaid * PRECISION /
          (s.totalAge - ageOf (s.agents target))) := by
  obtain ⟨-, hcost0, hcostU⟩ := hc
  have hpool : poolAmount c < U96 := by
    have h1 : poolAmount c ≤ c.costPerEpoch := Nat.sub_le _ _
    have h2 : (0 : Nat) < U96 := by decide
    omega
  refine ⟨?_, ?_, ?_, ?_, ?_⟩
  · intro wallet sender agentId epoch s s1 hok
    obtain ⟨-, -, -, -, hs1⟩ := register_ok_iff.mp hok
    subst hs1
    refine ⟨rfl, ?_, rfl⟩
    have hfld : ((registerEffect c sender agentId epoch s).agents
        sender).totalPaid = poolAmount c % U96 := by
      simp [registerEffect, registerAgent]
    rw [hfld, Nat.mod_eq_of_lt hpool]
    rfl
  · intro sender epoch s s1 hok hnw
    obtain ⟨-, -, -, -, -, hs1⟩ := heartbeat_ok_iff.mp hok
    subst hs1
    refine ⟨rfl, ?_, rfl⟩
    have hfld : ((heartbeatEffect c sender epoch
        (ageOf (s.agents sender) * s.accRewardPerAge / PRECISION -
          (s.agents sender).rewardDebt) s).agents sender).totalPaid =
        ((s.agents sender).totalPaid + poolAmount c) % U96 := by
      simp [heartbeatEffect, heartbeatAgent]
    rw [hfld, Nat.mod_eq_of_lt hnw]
    rfl
  · intro sender s hne
    unfold claimTreasury
    rw [if_pos hne]
  · intro sender s s1 hok
    unfold claimTreasury at hok
    split_ifs at hok with h1 h2
    simp only [Except.ok.injEq] at hok
    subst hok
    push_neg at h1
    exact ⟨h1, rfl, rfl⟩
  · intro target epoch s s1 hok hsurv
    obtain ⟨-, -, -, -, -, hs1⟩ := kill_ok_iff.mp hok
    subst hs1
    simp only [killEffect]
    rw [if_pos hsurv]

/-- C6 witness: the split on the concrete `traceA` fixture. -/
theorem claim_C6_witness :
    register cfgFix walletFix 101 1 1 (initState 9) =
      .ok (registerEffect cfgFix 101 1 1 (initState 9)) ∧
    (registerEffect cfgFix 101 1 1 (initState 9)).treasuryBalance =
      0 + 10000 * TREASURY_BPS / BPS_DENOMINATOR := by
  have h := (@claim_C6 cfgFix (by decide)).1 walletFix 101 1 1
    (initState 9) (registerEffect cfgFix 101 1 1 (initState 9)) rfl
  exact ⟨rfl, h.1⟩

-- ─── C10: write-once identity binding ──────────────────────────────────

/-- C10: once an `agentId` is bound to an address, no operation ever
rebinds it, and `register(agentId)` from any other address fails with
`AgentIdTaken` — even when the external identity registry now resolves the
`agentId` to that other address. -/
theorem claim_C10 {c : Config} {s : State} {agentId x : Nat}
    (hbound : s.agentIdToAddr agentId = x) (hx : x ≠ 0) :
    (∀ op : Op, (applyOp c s op).agentIdToAddr agentId = x) ∧
    (∀ (wallet : Nat → Nat) (sender epoch : Nat), sender ≠ x →
      wallet agentId = sender →
      register c wallet sender agentId epoch s =
        .error Err.AgentIdTaken) := by
  constructor
  · intro op
    cases op with
    | register wallet sender agentId' epoch =>
      cases hstep : register c wallet sender agentId' epoch s with
      | error err =>
        have ha : applyOp c s (Op.register wallet sender agentId' epoch) =
            s := applyOp_eq_of_error hstep
        rw [ha]
        exact hbound
      | ok s1 =>
        have ha : applyOp c s (Op.register wallet sender agentId' epoch) =
            s1 := applyOp_eq_of_ok hstep
        rw [ha]
        obtain ⟨hw, hbind, halive, hid, hs1⟩ := register_ok_iff.mp hstep
        subst hs1
        simp only [registerEffect]
        by_cases hnew : (s.agents sender).birthEpoch = 0
        · simp only [if_pos hnew]
          by_cases hq : agentId = agentId'
          · subst hq
            simp only [if_pos rfl]
            rcases hbind with h0 | hsen
            · rw [hbound] at h0
              exact absurd h0 hx
            · rw [hbound] at hsen
              exact hsen.symm
          · simp only [if_neg hq]
            exact hbound
        · simp only [if_neg hnew]
          exact hbound
    | heartbeat sender epoch =>
      cases hstep : heartbeat c sender epoch s with
      | error err =>
        have ha : applyOp c s (Op.heartbeat sender epoch) = s :=
          applyOp_eq_of_error hstep
        rw [ha]
        exact hbound
      | ok s1 =>
        have ha : applyOp c s (Op.heartbeat sender epoch) = s1 :=
          applyOp_eq_of_ok hstep
        rw [ha]
        obtain ⟨-, -, -, -, -, hs1⟩ := heartbeat_ok_iff.mp hstep
        subst hs1
        exact hbound
    | kill target epoch =>
      cases hstep : kill target epoch s with
      | error err =>
        have ha : applyOp c s (Op.kill target epoch) = s :=
          applyOp_eq_of_error hstep
        rw [ha]
        exact hbound
      | ok s1 =>
        have ha : applyOp c s (Op.kill target epoch) = s1 :=
          applyOp_eq_of_ok hstep
        rw [ha]
        obtain ⟨-, -, -, -, -, hs1⟩ := kill_ok_iff.mp hstep
        subst hs1
        exact hbound
    | claim sender epoch =>
      cases hstep : claim sender s with
      | error err =>
        have ha : applyOp c s (Op.claim sender epoch) = s :=
          applyOp_eq_of_error hstep
        rw [ha]
        exact hbound
      | ok s1 =>
        have ha : applyOp c s (Op.claim sender epoch) = s1 :=
          applyOp_eq_of_ok hstep
        rw [ha]
        obtain ⟨-, hcase⟩ := claim_ok_iff.mp hstep
        rcases hcase with ⟨-, -, -, hs1⟩ | ⟨-, -, hs1⟩ <;> subst hs1 <;>
          exact hbound
    | claimTreasury sender epoch =>
      cases hstep : claimTreasury sender s with
      | error err =>
        have ha : applyOp c s (Op.claimTreasury sender epoch) = s :=
          applyOp_eq_of_error hstep
        rw [ha]
        exact hbound
      | ok s1 =>
        have ha : applyOp c s (Op.claimTreasury sender epoch) = s1 :=
          applyOp_eq_of_ok hstep
        rw [ha]
        unfold claimTreasury at hstep
        split_ifs at hstep
        simp only [Except.ok.injEq] at hstep
        subst hstep
        exact hbound
    | transferTreasury sender newT epoch =>
      cases hstep : transferTreasury sender newT s with
      | error err =>
        have ha : applyOp c s (Op.transferTreasury sender newT epoch) = s :=
          applyOp_eq_of_error hstep
        rw [ha]
        exact hbound
      | ok s1 =>
        have ha : applyOp c s (Op.transferTreasury sender newT epoch) = s1 :=
          applyOp_eq_of_ok hstep
        rw [ha]
        unfold transferTreasury at hstep
        split_ifs at hstep
        simp only [Except.ok.injEq] at hstep
        subst hstep
        exact hbound
  · intro wallet sender epoch hne hw
    unfold register
    rw [if_neg (by rw [hw]; exact fun h => h rfl)]
    rw [if_pos ⟨by rw [hbound]; exact hx, by rw [hbound]; exact fun h => hne h.symm⟩]

/-- C10 witness: after agent id 1 is bound to address 101 in `stateA`, a
heartbeat leaves the binding intact and a register from address 42 (which
the identity registry now claims owns id 1) fails with `AgentIdTaken`. -/
theorem claim_C10_witness :
    (applyOp cfgFix stateA (.heartbeat 102 2)).agentIdToAddr 1 = 101 ∧
    register cfgFix (fun _ => 42) 42 1 5 stateA =
      .error Err.AgentIdTaken := by
  have h := @claim_C10 cfgFix stateA 1 101 (by rfl) (by decide)
  exact ⟨h.1 (.heartbeat 102 2), h.2 (fun _ => 42) 42 5 (by decide) rfl⟩

-- ─── C8: age read semantics ────────────────────────────────────────────

/-- C8: `getAge` returns `lastHeartbeatEpoch - birthEpoch + 1` while the
participant is alive; `kill` freezes it at the value held at death; no
later operation other than a re-registration by the same address changes a
dead participant's age; and (in coherent states) `getAge` is `0` exactly
for identities that have never registered. -/
theorem claim_C8 {s : State} (hco : Coherent s) :
    (∀ p, (s.agents p).alive = true →
      getAge s p = (s.agents p).lastHeartbeatEpoch -
        (s.agents p).birthEpoch + 1) ∧
    (∀ p, getAge s p = 0 ↔ p ∉ s.registry) ∧
    (∀ target epoch s', kill target epoch s = .ok s' →
      getAge s' target = getAge s target ∧ getAge s target ≠ 0) ∧
    (∀ (c : Config) (op : Op) p,
      (s.agents p).birthEpoch ≠ 0 → (s.agents p).alive = false →
      (∀ wallet agentId e, op ≠ Op.register wallet p agentId e) →
      getAge (applyOp c s op) p = getAge s p) := by
  refine ⟨?_, ?_, ?_, ?_⟩
  · intro p hal
    have hb : (s.agents p).birthEpoch ≠ 0 :=
      hco.birth_pos p (hco.mem_of_alive hal)
    simp [getAge, hb, ageOf]
  · intro p
    constructor
    · intro hz hmem
      have hb := hco.birth_pos p hmem
      simp only [getAge] at hz
      rw [if_neg hb] at hz
      simp [ageOf] at hz
    · intro hmem
      have he := hco.off_reg p hmem
      simp [getAge, he, Agent.empty]
  · intro target epoch s' hok
    obtain ⟨hb0, halive, -, -, -, hs'⟩ := kill_ok_iff.mp hok
    subst hs'
    constructor
    · simp only [getAge, killEffect]
      rfl
    · simp only [getAge]
      rw [if_neg hb0]
      simp [ageOf]
  · intro c op p hb0 hdead hnoreg
    cases op with
    | register wallet sender agentId epoch =>
      cases hstep : register c wallet sender agentId epoch s with
      | error err =>
        have ha : applyOp c s (Op.register wallet sender agentId epoch) = s :=
          applyOp_eq_of_error hstep
        rw [ha]
      | ok s1 =>
        have ha : applyOp c s (Op.register wallet sender agentId epoch) =
            s1 := applyOp_eq_of_ok hstep
        rw [ha]
        obtain ⟨-, -, -, -, hs1⟩ := register_ok_iff.mp hstep
        subst hs1
        have hps : p ≠ sender := fun h =>
          hnoreg wallet agentId epoch (by rw [h])
        simp only [getAge, registerEffect]
        rw [if_neg hps]
    | heartbeat sender epoch =>
      cases hstep : heartbeat c sender epoch s with
      | error err =>
        have ha : applyOp c s (Op.heartbeat sender epoch) = s :=
          applyOp_eq_of_error hstep
        rw [ha]
      | ok s1 =>
        have ha : applyOp c s (Op.heartbeat sender epoch) = s1 :=
          applyOp_eq_of_ok hstep
        rw [ha]
        obtain ⟨-, halive, -, -, -, hs1⟩ := heartbeat_ok_iff.mp hstep
        subst hs1
        have hps : p ≠ sender := fun h => by
          rw [h] at hdead
          rw [hdead] at halive
          exact absurd halive (by simp)
        simp only [getAge, heartbeatEffect]
        rw [if_neg hps]
    | kill target epoch =>
      cases hstep : kill target epoch s with
      | error err =>
        have ha : applyOp c s (Op.kill target epoch) = s :=
          applyOp_eq_of_error hstep
        rw [ha]
      | ok s1 =>
        have ha : applyOp c s (Op.kill target epoch) = s1 :=
          applyOp_eq_of_ok hstep
        rw [ha]
        obtain ⟨-, halive, -, -, -, hs1⟩ := kill_ok_iff.mp hstep
        subst hs1
        by_cases hps : p = target
        · rw [hps] at hdead
          rw [hdead] at halive
          exact absurd halive (by simp)
        · simp only [getAge, killEffect]
          rw [if_neg hps]
    | claim sender epoch =>
      cases hstep : claim sender s with
      | error err =>
        have ha : applyOp c s (Op.claim sender epoch) = s :=
          applyOp_eq_of_error hstep
        rw [ha]
      | ok s1 =>
        have ha : applyOp c s (Op.claim sender epoch) = s1 :=
          applyOp_eq_of_ok hstep
        rw [ha]
        obtain ⟨-, hcase⟩ := claim_ok_iff.mp hstep
        rcases hcase with ⟨-, -, -, hs1⟩ | ⟨-, -, hs1⟩ <;> subst hs1 <;>
          by_cases hps : p = sender
        · rw [hps]
          simp [getAge, claimEffectAlive, claimAgentAlive, ageOf]
        · simp only [getAge, claimEffectAlive]
          rw [if_neg hps]
        · rw [hps]
          simp [getAge, claimEffectDead, claimAgentDead, ageOf]
        · simp only [getAge, claimEffectDead]
          rw [if_neg hps]
    | claimTreasury sender epoch =>
      cases hstep : claimTreasury sender s with
      | error err =>
        have ha : applyOp c s (Op.claimTreasury sender epoch) = s :=
          applyOp_eq_of_error hstep
        rw [ha]
      | ok s1 =>
        have ha : applyOp c s (Op.claimTreasury sender epoch) = s1 :=
          applyOp_eq_of_ok hstep
        rw [ha]
        unfold claimTreasury at hstep
        split_ifs at hstep
        simp only [Except.ok.injEq] at hstep
        subst hstep
        rfl
    | transferTreasury sender newT epoch =>
      cases hstep : transferTreasury sender newT s with
      | error err =>
        have ha : applyOp c s (Op.transferTreasury sender newT epoch) = s :=
          applyOp_eq_of_error hstep
        rw [ha]
      | ok s1 =>
        have ha : applyOp c s (Op.transferTreasury sender newT epoch) = s1 :=
          applyOp_eq_of_ok hstep
        rw [ha]
        unfold transferTreasury at hstep
        split_ifs at hstep
        simp only [Except.ok.injEq] at hstep
        subst hstep
        rfl

/-- C8 witness: in `stateA` (agent 101 dead at age 1, agent 102 alive),
the tombstone age of 101 survives a heartbeat by 102 and the unregistered
address 7 reads age 0. -/
theorem claim_C8_witness :
    getAge stateA 101 = 1 ∧
    getAge (applyOp cfgFix stateA (.heartbeat 102 2)) 101 = 1 ∧
    getAge stateA 7 = 0 := by
  have hco : Coherent stateA :=
    @coherent_execTrace cfgFix 9 traceA (by decide)
  have h := claim_C8 hco
  refine ⟨by decide, ?_, by decide⟩
  have h4 := h.2.2.2 cfgFix (.heartbeat 102 2) 101 (by decide) (by decide)
    (fun wallet agentId e => by intro hop; cases hop)
  rw [h4]
  decide

-- ─── C2: last-participant payout ───────────────────────────────────────

theorem aliveAgeSum_single {s : State} (hco : Coherent s) {target : Nat}
    (halive : (s.agents target).alive = true)
    (honly : ∀ p ∈ s.registry, (s.agents p).alive = true → p = target) :
    aliveAgeSum s = ageOf (s.agents target) := by
  have hmem : target ∈ s.registry := hco.mem_of_alive halive
  have hperm := List.perm_cons_erase hmem
  unfold aliveAgeSum
  rw [(hperm.map fun p =>
    if (s.agents p).alive then ageOf (s.agents p) else 0).sum_eq]
  simp only [List.map_cons, List.sum_cons, halive, if_true]
  have hz : ((s.registry.erase target).map fun p =>
      if (s.agents p).alive then ageOf (s.agents p) else 0).sum = 0 := by
    apply List.sum_eq_zero
    intro x hx
    obtain ⟨q, hq, rfl⟩ := List.mem_map.mp hx
    obtain ⟨hqt, hqm⟩ := (hco.nodup.mem_erase_iff).mp hq
    rw [if_neg]
    intro hqa
    exact hqt (honly q hqm hqa)
  rw [hz]
  omega

/-- C2: killing the sole remaining living participant (past the grace
window) credits their own `totalPaid` into their own `claimableBalance`,
on top of the settled pending reward, and leaves the reward accumulator
unchanged (no distribution into the empty age pool). -/
theorem claim_C2 {s : State} {target epoch : Nat}
    (hco : Coherent s)
    (halive : (s.agents target).alive = true)
    (honly : ∀ p ∈ s.registry, (s.agents p).alive = true → p = target)
    (hpast : (s.agents target).lastHeartbeatEpoch + 1 < epoch) :
    ∃ s', kill target epoch s = .ok s' ∧
      (s'.agents target).claimable =
        (s.agents target).claimable +
        (ageOf (s.agents target) * s.accRewardPerAge / PRECISION -
          (s.agents target).rewardDebt) +
        (s.agents target).totalPaid ∧
      s'.accRewardPerAge = s.accRewardPerAge ∧
      s'.totalAge = 0 := by
  have hmem : target ∈ s.registry := hco.mem_of_alive halive
  have hb0 : (s.agents target).birthEpoch ≠ 0 := hco.birth_pos target hmem
  have hdebt := hco.debt_le target halive
  have htage : s.totalAge = ageOf (s.agents target) := by
    rw [hco.age_sum]
    exact aliveAgeSum_single hco halive honly
  have hok : kill target epoch s = .ok (killEffect target
      (ageOf (s.agents target) * s.accRewardPerAge / PRECISION -
        (s.agents target).rewardDebt)
      (s.totalAge - ageOf (s.agents target)) s) :=
    kill_ok_iff.mpr ⟨hb0, halive, hpast, hdebt, by omega, rfl⟩
  refine ⟨_, hok, ?_, ?_, ?_⟩
  · have hz : s.totalAge - ageOf (s.agents target) = 0 := by omega
    simp only [killEffect, hz]
    simp [killAgent]
  · have hz : s.totalAge - ageOf (s.agents target) = 0 := by omega
    simp only [killEffect, hz]
    rfl
  · have hz : s.totalAge - ageOf (s.agents target) = 0 := by omega
    simp only [killEffect, hz]

/-- C2 witness: in `stateA` agent 102 is the sole survivor; killing it at
epoch 3 credits its `totalPaid` (9000) plus its settled pending reward
(9000, absorbed from 101's death) to its own claimable balance. -/
theorem claim_C2_witness :
    ∃ s', kill 102 3 stateA = .ok s' ∧
      (s'.agents 102).claimable =
        (stateA.agents 102).claimable +
        (ageOf (stateA.agents 102) * stateA.accRewardPerAge / PRECISION -
          (stateA.agents 102).rewardDebt) +
        (stateA.agents 102).totalPaid ∧
      s'.accRewardPerAge = stateA.accRewardPerAge ∧
      s'.totalAge = 0 := by
  have hco : Coherent stateA :=
    @coherent_execTrace cfgFix 9 traceA (by decide)
  exact claim_C2 hco (by decide) (by decide) (by decide)

-- ─── C4: re-registration carry-over ────────────────────────────────────

/-- C4: a dead participant with a non-zero `claimable` balance who
re-registers (same `agentId`, without claiming first) succeeds, keeps
exactly that balance, resets the age-relevant fields
(`birthEpoch`, `lastHeartbeatEpoch`, `totalPaid`, `rewardDebt`), and an
immediate `claim` afterwards pays out exactly the carried-over balance. -/
theorem claim_C4 {c : Config} {wallet : Nat → Nat}
    {sender agentId epoch : Nat} {s : State}
    (hco : Coherent s)
    (hdead : (s.agents sender).alive = false)
    (hreg : (s.agents sender).birthEpoch ≠ 0)
    (hid : (s.agents sender).agentId = agentId)
    (hw : wallet agentId = sender)
    (he1 : 1 ≤ epoch) (heU : epoch < U64) :
    ∃ s1, register c wallet sender agentId epoch s = .ok s1 ∧
      (s1.agents sender).claimable = (s.agents sender).claimable ∧
      (s1.agents sender).birthEpoch = epoch ∧
      (s1.agents sender).lastHeartbeatEpoch = epoch ∧
      (s1.agents sender).totalPaid = poolAmount c % U96 ∧
      (s1.agents sender).rewardDebt = s.accRewardPerAge / PRECISION ∧
      s1.registry = s.registry ∧
      ((s.agents sender).claimable ≠ 0 →
        ∃ s2, claim sender s1 = .ok s2 ∧
          s2.totalOut = s1.totalOut + (s.agents sender).claimable) := by
  have hmem : sender ∈ s.registry := hco.mem_of_birth_pos hreg
  have hbind : s.agentIdToAddr agentId = sender := by
    have := hco.bind_ok sender hmem
    rw [hid] at this
    exact this
  have hmod : epoch % U64 = epoch := Nat.mod_eq_of_lt heU
  have hok : register c wallet sender agentId epoch s =
      .ok (registerEffect c sender agentId epoch s) :=
    register_ok_iff.mpr ⟨hw, Or.inr hbind, hdead, Or.inr hid, rfl⟩
  have hag : (registerEffect c sender agentId epoch s).agents sender =
      registerAgent c agentId epoch s.accRewardPerAge
        (s.agents sender).claimable := by
    simp [registerEffect]
  have hacc1 : (registerEffect c sender agentId epoch s).accRewardPerAge =
      s.accRewardPerAge := rfl
  refine ⟨_, hok, ?_, ?_, ?_, ?_, ?_, ?_, ?_⟩
  · rw [hag]; rfl
  · rw [hag]; exact hmod
  · rw [hag]; exact hmod
  · rw [hag]; rfl
  · rw [hag]; rfl
  · simp [registerEffect, hreg]
  · intro hnz
    have hb1 : ((registerEffect c sender agentId epoch s).agents
        sender).birthEpoch ≠ 0 := by
      rw [hag]
      show epoch % U64 ≠ 0
      omega
    have hal1 : ((registerEffect c sender agentId epoch s).agents
        sender).alive = true := by rw [hag]; rfl
    have hage1 : ageOf ((registerEffect c sender agentId epoch s).agents
        sender) = 1 := by
      rw [hag]
      simp [registerAgent, ageOf]
    have hdebt1 : ((registerEffect c sender agentId epoch s).agents
        sender).rewardDebt = s.accRewardPerAge / PRECISION := by
      rw [hag]; rfl
    have hclm1 : ((registerEffect c sender agentId epoch s).agents
        sender).claimable = (s.agents sender).claimable := by
      rw [hag]; rfl
    have hzero : ageOf ((registerEffect c sender agentId epoch s).agents
          sender) *
        (registerEffect c sender agentId epoch s).accRewardPerAge /
          PRECISION -
        ((registerEffect c sender agentId epoch s).agents
          sender).rewardDebt = 0 := by
      rw [hage1, hacc1, hdebt1, one_mul]
      omega
    refine ⟨_, claim_ok_iff.mpr ⟨hb1, Or.inl ⟨hal1, ?_, ?_, rfl⟩⟩, ?_⟩
    · rw [hage1, hacc1, hdebt1, one_mul]
    · rw [hzero, hclm1]
      simpa using hnz
    · show (registerEffect c sender agentId epoch s).totalOut +
        (_ + _) = _
      rw [hzero, hclm1]
      simp

/-- C4 witness: after killing 101 in `stateA` its claimable is 0, so use a
variant where the dead agent has a claimable balance: kill 102 at epoch 3
(102 then holds 18000 claimable), then 102 re-registers at epoch 4 and
claims: the payout equals the carried balance. -/
theorem claim_C4_witness :
    ∃ s1, register cfgFix walletFix 102 2 4
        (applyOp cfgFix stateA (.kill 102 3)) = .ok s1 ∧
      (s1.agents 102).claimable =
        ((applyOp cfgFix stateA (.kill 102 3)).agents 102).claimable ∧
      (s1.agents 102).birthEpoch = 4 ∧
      (s1.agents 102).lastHeartbeatEpoch = 4 ∧
      (s1.agents 102).totalPaid = poolAmount cfgFix % U96 ∧
      (s1.agents 102).rewardDebt =
        (applyOp cfgFix stateA (.kill 102 3)).accRewardPerAge / PRECISION ∧
      s1.registry = (applyOp cfgFix stateA (.kill 102 3)).registry ∧
      (((applyOp cfgFix stateA (.kill 102 3)).agents 102).claimable ≠ 0 →
        ∃ s2, claim 102 s1 = .ok s2 ∧
          s2.totalOut = s1.totalOut +
            ((applyOp cfgFix stateA (.kill 102 3)).agents 102).claimable) := by
  have hco : Coherent (applyOp cfgFix stateA (.kill 102 3)) := by
    have : applyOp cfgFix stateA (.kill 102 3) =
        execTrace cfgFix 9 (traceA ++ [.kill 102 3]) := by
      simp [execTrace, stateA, List.foldl_append]
    rw [this]
    exact @coherent_execTrace cfgFix 9 (traceA ++ [Op.kill 102 3]) (by decide)
  exact claim_C4 hco (by decide) (by decide) (by decide) (by decide)
    (by decide) (by decide)

-- ─── C7: incremental totalAge invariant ────────────────────────────────

theorem sum_filter_eq_sum_ite (l : List Nat) (f : Nat → Bool)
    (g : Nat → Nat) :
    ((l.filter f).map g).sum = (l.map fun p => if f p then g p else 0).sum := by
  induction l with
  | nil => rfl
  | cons a t ih =>
    by_cases hf : f a
    · simp [List.filter_cons, hf, ih]
    · simp [List.filter_cons, hf, ih]

/-- C7: in every reachable state, `totalAge` equals the sum of
`lastHeartbeatEpoch - birthEpoch + 1` over all currently alive
participants, and each operation maintains it incrementally: `register`
adds 1, `heartbeat` adds 1, and `kill` subtracts the killed participant's
age — no operation recomputes the sum by scanning. -/
theorem claim_C7 {c : Config} {deployer : Nat} {ops : List Op}
    (hv : ValidTrace ops) :
    (execTrace c deployer ops).totalAge =
      (((execTrace c deployer ops).registry.filter fun p =>
          ((execTrace c deployer ops).agents p).alive).map fun p =>
        ((execTrace c deployer ops).agents p).lastHeartbeatEpoch -
          ((execTrace c deployer ops).agents p).birthEpoch + 1).sum ∧
    (∀ wallet sender agentId epoch s s1,
      register c wallet sender agentId epoch s = .ok s1 →
      s1.totalAge = s.totalAge + 1) ∧
    (∀ sender epoch s s1, heartbeat c sender epoch s = .ok s1 →
      s1.totalAge = s.totalAge + 1) ∧
    (∀ target epoch s s1, kill target epoch s = .ok s1 →
      s1.totalAge = s.totalAge - ageOf (s.agents target)) := by
  refine ⟨?_, ?_, ?_, ?_⟩
  · have hco := @coherent_execTrace c deployer ops hv
    rw [hco.age_sum]
    unfold aliveAgeSum
    rw [sum_filter_eq_sum_ite]
    rfl
  · intro wallet sender agentId epoch s s1 hok
    obtain ⟨-, -, -, -, hs1⟩ := register_ok_iff.mp hok
    subst hs1
    rfl
  · intro sender epoch s s1 hok
    obtain ⟨-, -, -, -, -, hs1⟩ := heartbeat_ok_iff.mp hok
    subst hs1
    rfl
  · intro target epoch s s1 hok
    obtain ⟨-, -, -, -, -, hs1⟩ := kill_ok_iff.mp hok
    subst hs1
    rfl

/-- C7 witness: the invariant evaluated on `stateA`, plus one concrete
incremental step. -/
theorem claim_C7_witness :
    stateA.totalAge =
      (((stateA.registry.filter fun p => (stateA.agents p).alive).map
        fun p => (stateA.agents p).lastHeartbeatEpoch -
          (stateA.agents p).birthEpoch + 1)).sum ∧
    (registerEffect cfgFix 101 1 1 (initState 9)).totalAge =
      (initState 9).totalAge + 1 := by
  have h := @claim_C7 cfgFix 9 traceA (by decide)
  exact ⟨h.1, h.2.1 walletFix 101 1 1 (initState 9) _ rfl⟩

-- ─── C9: batch query range semantics ───────────────────────────────────

/-- The snapshot `getAgentList` builds for one registry slot, as a total
function (in coherent states the checked subtraction in the pending-reward
expression never underflows, so this agrees with `agentInfoAt`). -/
def agentInfoTotal (s : State) (epoch addr : Nat) : AgentInfo :=
  let a := s.agents addr
  { addr := addr
    agentId := a.agentId
    birthEpoch := a.birthEpoch
    lastHeartbeatEpoch := a.lastHeartbeatEpoch
    alive := a.alive
    killable := a.alive && decide (epoch > a.lastHeartbeatEpoch + 1)
    age := if a.birthEpoch = 0 then 0 else ageOf a
    totalPaid := a.totalPaid
    pendingReward :=
      if a.birthEpoch = 0 then 0
      else if a.alive = false then a.claimable
      else (ageOf a * s.accRewardPerAge / PRECISION - a.rewardDebt) +
        a.claimable }

/-- The page of registry addresses covered by the clamped inclusive range
`[startIndex, endIndex']`. -/
def rangeSlice (s : State) (startIndex endIndex : Nat) : List Nat :=
  (List.range (endIndex - startIndex + 1)).map fun i =>
    s.registry.getD (startIndex + i) 0

theorem mapM_ok_of_forall {α β : Type} (l : List α) (f : α → Except Err β)
    (g : α → β) (h : ∀ x ∈ l, f x = .ok (g x)) :
    l.mapM f = .ok (l.map g) := by
  induction l with
  | nil => rfl
  | cons a t ih =>
    rw [List.mapM_cons, h a (List.mem_cons_self a t),
      ih fun x hx => h x (List.mem_cons_of_mem a hx)]
    rfl

theorem agentInfoAt_total {s : State} (hco : Coherent s) (epoch addr : Nat) :
    agentInfoAt s epoch addr = .ok (agentInfoTotal s epoch addr) := by
  unfold agentInfoAt agentInfoTotal
  by_cases hb : (s.agents addr).birthEpoch = 0
  · simp [hb]
    rfl
  · by_cases hal : (s.agents addr).alive = true
    · have hdebt := hco.debt_le addr hal
      simp [hb, hal, checkedSub, hdebt]
    · rw [Bool.not_eq_true] at hal
      simp [hb, hal]
      rfl

deriving instance DecidableEq for Except

/-- C9 counterexample: the claim as stated is false on two counts.  In
`stateA` (registry length 2) the all-in-range promise is violated:
`startIndex = 3 ≤ endIndex = 3` yet `getAgentList` (and `getKillable`)
abort with an arithmetic panic — the `unchecked` range length wraps to an
astronomic value — instead of returning a page.  And on an empty registry
`startIndex = 5 > endIndex = 3` returns an empty page instead of failing
with `InvalidRange`. -/
theorem claim_C9_counterexample :
    (3 ≤ 3 ∧ stateA.registry.length = 2 ∧
      getAgentList stateA 3 3 3 = .error Err.ArithPanic ∧
      getKillable stateA 3 3 3 = .error Err.ArithPanic) ∧
    (5 > 3 ∧ getAgentList (initState 9) 3 5 3 = .ok [] ∧
      getKillable (initState 9) 3 5 3 = .ok []) := by
  decide

/-- C9 (amended): over a coherent state, for both batch queries: a range
end beyond the last index is clamped to it; `startIndex > endIndex` fails
with `InvalidRange` when the registry is non-empty (an empty registry
returns an empty page for any range, including `startIndex > endIndex`);
whenever `startIndex ≤ endIndex` and `startIndex < registry length` the
query succeeds with exactly one entry per index of the clamped range
(`getKillable` returning the killable subset of those entries); at
`startIndex = registry length` (with `startIndex ≤ endIndex`) the
unchecked range length wraps to exactly 0 and the query returns an empty
page with no revert; and for `startIndex > registry length` (non-empty
registry, `startIndex ≤ endIndex`) the wrap is astronomic and the call
aborts with an EVM panic. -/
theorem claim_C9_amended {s : State} (hco : Coherent s)
    (epoch startIndex endIndex : Nat) :
    (s.registry.length ≠ 0 → startIndex > endIndex →
      getAgentList s epoch startIndex endIndex = .error Err.InvalidRange ∧
      getKillable s epoch startIndex endIndex = .error Err.InvalidRange) ∧
    (s.registry.length = 0 →
      getAgentList s epoch startIndex endIndex = .ok [] ∧
      getKillable s epoch startIndex endIndex = .ok []) ∧
    (startIndex ≤ endIndex → startIndex < s.registry.length →
      (getAgentList s epoch startIndex endIndex =
        .ok ((rangeSlice s startIndex
          (if endIndex ≥ s.registry.length then s.registry.length - 1
           else endIndex)).map (agentInfoTotal s epoch)) ∧
      (rangeSlice s startIndex
          (if endIndex ≥ s.registry.length then s.registry.length - 1
           else endIndex)).length =
        (if endIndex ≥ s.registry.length then s.registry.length - 1
         else endIndex) - startIndex + 1 ∧
      getKillable s epoch startIndex endIndex =
        .ok ((rangeSlice s startIndex
          (if endIndex ≥ s.registry.length then s.registry.length - 1
           else endIndex)).filter fun addr =>
            (s.agents addr).alive &&
              decide (epoch > (s.agents addr).lastHeartbeatEpoch + 1)))) ∧
    (startIndex ≤ endIndex → startIndex = s.registry.length →
      getAgentList s epoch startIndex endIndex = .ok [] ∧
      getKillable s epoch startIndex endIndex = .ok []) ∧
    (s.registry.length ≠ 0 → startIndex ≤ endIndex →
      startIndex > s.registry.length →
      getAgentList s epoch startIndex endIndex = .error Err.ArithPanic ∧
      getKillable s epoch startIndex endIndex = .error Err.ArithPanic) := by
  refine ⟨?_, ?_, ?_, ?_, ?_⟩
  · intro hne hgt
    unfold getAgentList getKillable
    rw [if_neg hne, if_pos hgt, if_neg hne, if_pos hgt]
    exact ⟨rfl, rfl⟩
  · intro hz
    unfold getAgentList getKillable
    rw [if_pos hz, if_pos hz]
    exact ⟨rfl, rfl⟩
  · intro hle hlt
    have hne : s.registry.length ≠ 0 := by omega
    have hcle : startIndex ≤
        (if endIndex ≥ s.registry.length then s.registry.length - 1
         else endIndex) := by
      split <;> omega
    have hne1 : ¬ startIndex =
        (if endIndex ≥ s.registry.length then s.registry.length - 1
         else endIndex) + 1 := by omega
    have hne2 : ¬ startIndex >
        (if endIndex ≥ s.registry.length then s.registry.length - 1
         else endIndex) + 1 := by omega
    refine ⟨?_, ?_, ?_⟩
    · unfold getAgentList
      rw [if_neg hne, if_neg (by omega), if_neg hne1, if_neg hne2]
      unfold rangeSlice
      rw [List.map_map]
      exact mapM_ok_of_forall _ _ _ fun x _ => agentInfoAt_total hco epoch _
    · unfold rangeSlice
      simp
    · unfold getKillable
      rw [if_neg hne, if_neg (by omega), if_neg hne1, if_neg hne2]
      rfl
  · intro hle heq
    by_cases hz : s.registry.length = 0
    · unfold getAgentList getKillable
      rw [if_pos hz, if_pos hz]
      exact ⟨rfl, rfl⟩
    · have hge : endIndex ≥ s.registry.length := by omega
      have hngt : ¬ startIndex > endIndex := by omega
      have hs1 : startIndex =
          (if endIndex ≥ s.registry.length then s.registry.length - 1
           else endIndex) + 1 := by
        rw [if_pos hge]
        omega
      unfold getAgentList getKillable
      rw [if_neg hz, if_neg hngt, if_pos hs1, if_neg hz, if_neg hngt,
        if_pos hs1]
      exact ⟨rfl, rfl⟩
  · intro hne hle hgt
    have hge : endIndex ≥ s.registry.length := by omega
    have hngt : ¬ startIndex > endIndex := by omega
    have hne1 : ¬ startIndex =
        (if endIndex ≥ s.registry.length then s.registry.length - 1
         else endIndex) + 1 := by
      rw [if_pos hge]
      omega
    have hgt1 : startIndex >
        (if endIndex ≥ s.registry.length then s.registry.length - 1
         else endIndex) + 1 := by
      rw [if_pos hge]
      omega
    unfold getAgentList getKillable
    rw [if_neg hne, if_neg hngt, if_neg hne1, if_pos hgt1, if_neg hne,
      if_neg hngt, if_neg hne1, if_pos hgt1]
    exact ⟨rfl, rfl⟩

/-- C9 witness: the amended semantics evaluated on `stateA` (registry
length 2): an in-range page, a killable-subset page, the empty page at
`startIndex = 2 = length`, and the panic at `startIndex = 3`. -/
theorem claim_C9_witness :
    getAgentList stateA 3 1 7 =
      .ok ((rangeSlice stateA 1
        (if 7 ≥ stateA.registry.length then stateA.registry.length - 1
         else 7)).map (agentInfoTotal stateA 3)) ∧
    getKillable stateA 3 0 1 =
      .ok ((rangeSlice stateA 0
        (if 1 ≥ stateA.registry.length then stateA.registry.length - 1
         else 1)).filter fun addr =>
          (stateA.agents addr).alive &&
            decide (3 > (stateA.agents addr).lastHeartbeatEpoch + 1)) ∧
    getAgentList stateA 3 2 3 = .ok [] ∧
    getKillable stateA 3 2 3 = .ok [] ∧
    getAgentList stateA 3 4 4 = .error Err.ArithPanic := by
  have hco : Coherent stateA :=
    @coherent_execTrace cfgFix 9 traceA (by decide)
  refine ⟨((claim_C9_amended hco 3 1 7).2.2.1 (by decide) (by decide)).1,
    ((claim_C9_amended hco 3 0 1).2.2.1 (by decide) (by decide)).2.2,
    ((claim_C9_amended hco 3 2 3).2.2.2.1 (by decide) (by decide)).1,
    ((claim_C9_amended hco 3 2 3).2.2.2.1 (by decide) (by decide)).2,
    ((claim_C9_amended hco 3 4 4).2.2.2.2 (by decide) (by decide)
      (by decide)).1⟩

-- ─── C3: age-weighted fairness ─────────────────────────────────────────

theorem PRECISION_pos : 0 < PRECISION := by
  unfold PRECISION
  positivity

/-- A survivor of age `a` receives at most its ideal share `r*a/T` from a
distribution of `r` through the accumulator increment `r*PRECISION/T`. -/
theorem share_upper (a T r : Nat) (hT : 0 < T) :
    a * (r * PRECISION / T) / PRECISION ≤ r * a / T := by
  rw [Nat.le_div_iff_mul_le hT]
  apply Nat.le_of_mul_le_mul_right ?_ PRECISION_pos
  calc a * (r * PRECISION / T) / PRECISION * T * PRECISION
      = a * (r * PRECISION / T) / PRECISION * PRECISION * T := by ring
    _ ≤ a * (r * PRECISION / T) * T :=
        Nat.mul_le_mul_right _ (Nat.div_mul_le_self _ _)
    _ = r * PRECISION / T * T * a := by ring
    _ ≤ r * PRECISION * a := Nat.mul_le_mul_right _ (Nat.div_mul_le_self _ _)
    _ = r * a * PRECISION := by ring

/-- A survivor of age `a ≤ PRECISION` receives at least its ideal share
minus one unit. -/
theorem share_lower (a T r : Nat) (hT : 0 < T) (haP : a ≤ PRECISION) :
    r * a / T ≤ a * (r * PRECISION / T) / PRECISION + 1 := by
  have hP := PRECISION_pos
  have hkey : r * a / T * PRECISION ≤
      a * (r * PRECISION / T) + PRECISION := by
    apply Nat.le_of_mul_le_mul_right ?_ hT
    have hq : r * a / T * T ≤ r * a := Nat.div_mul_le_self _ _
    have hrP : r * PRECISION < T * (r * PRECISION / T + 1) :=
      Nat.lt_mul_div_succ _ hT
    have hrP2 : r * PRECISION ≤ T * (r * PRECISION / T) + T := by
      rw [Nat.mul_add, Nat.mul_one] at hrP
      omega
    calc r * a / T * PRECISION * T
        = r * a / T * T * PRECISION := by ring
      _ ≤ r * a * PRECISION := Nat.mul_le_mul_right _ hq
      _ = r * PRECISION * a := by ring
      _ ≤ (T * (r * PRECISION / T) + T) * a := Nat.mul_le_mul_right _ hrP2
      _ = a * (r * PRECISION / T) * T + T * a := by ring
      _ ≤ a * (r * PRECISION / T) * T + T * PRECISION :=
          Nat.add_le_add_left (Nat.mul_le_mul_left _ haP) _
      _ = (a * (r * PRECISION / T) + PRECISION) * T := by ring
  have hfin := (Nat.le_div_iff_mul_le hP).mpr hkey
  rwa [Nat.add_div_right _ hP] at hfin

/-- The lazy accrual delta caused by bumping the accumulator from `acc` to
`acc + d`, for an agent of age `a`, is between `a*d/PRECISION` and
`a*d/PRECISION + 1`. -/
theorem accrual_delta_bounds (a acc d : Nat) :
    a * d / PRECISION ≤ a * (acc + d) / PRECISION - a * acc / PRECISION ∧
    a * (acc + d) / PRECISION - a * acc / PRECISION ≤
      a * d / PRECISION + 1 := by
  have hsplit : a * (acc + d) = a * acc + a * d := by ring
  rw [hsplit]
  have hlo := Nat.add_div_le_add_div (a * acc) (a * d) PRECISION
  have hhi := add_div_le (a * acc) (a * d) PRECISION
  constructor
  · exact Nat.le_sub_of_add_le (by rw [Nat.add_comm]; exact hlo)
  · rw [Nat.sub_le_iff_le_add]
    calc (a * acc + a * d) / PRECISION
        ≤ a * acc / PRECISION + a * d / PRECISION + 1 := hhi
      _ = a * d / PRECISION + 1 + a * acc / PRECISION := by ring

theorem aliveAgeSum_three {s : State} (hco : Coherent s) {p1 p2 t : Nat}
    (h1 : (s.agents p1).alive = true) (h2 : (s.agents p2).alive = true)
    (ht : (s.agents t).alive = true)
    (hd12 : p1 ≠ p2) (hd1t : p1 ≠ t) (hd2t : p2 ≠ t)
    (honly : ∀ p ∈ s.registry, (s.agents p).alive = true →
      p = p1 ∨ p = p2 ∨ p = t) :
    aliveAgeSum s = ageOf (s.agents p1) + ageOf (s.agents p2) +
      ageOf (s.agents t) := by
  unfold aliveAgeSum
  rw [← sum_filter_eq_sum_ite]
  have hperm : (s.registry.filter fun p => (s.agents p).alive).Perm
      [p1, p2, t] := by
    rw [List.perm_ext_iff_of_nodup (hco.nodup.filter _)
      (by simp [hd12, hd1t, hd2t])]
    intro q
    simp only [List.mem_filter, List.mem_cons, List.mem_singleton,
      List.not_mem_nil, or_false]
    constructor
    · rintro ⟨hqm, hqa⟩
      exact honly q hqm hqa
    · rintro (rfl | rfl | rfl)
      · exact ⟨hco.mem_of_alive h1, h1⟩
      · exact ⟨hco.mem_of_alive h2, h2⟩
      · exact ⟨hco.mem_of_alive ht, ht⟩
  rw [(hperm.map fun p => ageOf (s.agents p)).sum_eq]
  simp [Nat.add_assoc]

/-- C3: when exactly two participants (ages `a`, `b`) survive a third who
had contributed `r` to the redistribution pool, killing the third raises
each survivor's `pendingReward` by `r*a/(a+b)` resp. `r*b/(a+b)`, within
one minimal unit of integer-division rounding (stated for ages up to
`PRECISION = 1e18` epochs). -/
theorem claim_C3 {s : State} {p1 p2 target epoch : Nat}
    (hco : Coherent s)
    (h1 : (s.agents p1).alive = true) (h2 : (s.agents p2).alive = true)
    (ht : (s.agents target).alive = true)
    (hd12 : p1 ≠ p2) (hd1t : p1 ≠ target) (hd2t : p2 ≠ target)
    (honly : ∀ p ∈ s.registry, (s.agents p).alive = true →
      p = p1 ∨ p = p2 ∨ p = target)
    (hpast : (s.agents target).lastHeartbeatEpoch + 1 < epoch)
    (haP : ageOf (s.agents p1) ≤ PRECISION)
    (hbP : ageOf (s.agents p2) ≤ PRECISION) :
    ∃ s' v1 v2 d1 d2,
      kill target epoch s = .ok s' ∧
      pendingReward s p1 = .ok v1 ∧ pendingReward s' p1 = .ok (v1 + d1) ∧
      pendingReward s p2 = .ok v2 ∧ pendingReward s' p2 = .ok (v2 + d2) ∧
      d1 ≤ (s.agents target).totalPaid * ageOf (s.agents p1) /
        (ageOf (s.agents p1) + ageOf (s.agents p2)) + 1 ∧
      (s.agents target).totalPaid * ageOf (s.agents p1) /
        (ageOf (s.agents p1) + ageOf (s.agents p2)) ≤ d1 + 1 ∧
      d2 ≤ (s.agents target).totalPaid * ageOf (s.agents p2) /
        (ageOf (s.agents p1) + ageOf (s.agents p2)) + 1 ∧
      (s.agents target).totalPaid * ageOf (s.agents p2) /
        (ageOf (s.agents p1) + ageOf (s.agents p2)) ≤ d2 + 1 := by
  have hmemt : target ∈ s.registry := hco.mem_of_alive ht
  have hb0 : (s.agents target).birthEpoch ≠ 0 := hco.birth_pos target hmemt
  have hdebt := hco.debt_le target ht
  have hsum := aliveAgeSum_three hco h1 h2 ht hd12 hd1t hd2t honly
  have htage : s.totalAge = ageOf (s.agents p1) + ageOf (s.agents p2) +
      ageOf (s.agents target) := by rw [hco.age_sum, hsum]
  have ha1 : 1 ≤ ageOf (s.agents p1) := by unfold ageOf; omega
  have hb1 : 1 ≤ ageOf (s.agents p2) := by unfold ageOf; omega
  have hnt : s.totalAge - ageOf (s.agents target) =
      ageOf (s.agents p1) + ageOf (s.agents p2) := by omega
  have hntpos : 0 < s.totalAge - ageOf (s.agents target) := by omega
  have hok : kill target epoch s = .ok (killEffect target
      (ageOf (s.agents target) * s.accRewardPerAge / PRECISION -
        (s.agents target).rewardDebt)
      (s.totalAge - ageOf (s.agents target)) s) :=
    kill_ok_iff.mpr ⟨hb0, ht, hpast, hdebt, by omega, rfl⟩
  have hacc' : (killEffect target
      (ageOf (s.agents target) * s.accRewardPerAge / PRECISION -
        (s.agents target).rewardDebt)
      (s.totalAge - ageOf (s.agents target)) s).accRewardPerAge =
      s.accRewardPerAge + (s.agents target).totalPaid * PRECISION /
        (ageOf (s.agents p1) + ageOf (s.agents p2)) := by
    simp only [killEffect]
    rw [if_pos hntpos, hnt]
  have hpend : ∀ p, (s.agents p).alive = true → p ≠ target →
      pendingReward s p = .ok
        ((ageOf (s.agents p) * s.accRewardPerAge / PRECISION -
          (s.agents p).rewardDebt) + (s.agents p).claimable) ∧
      pendingReward (killEffect target
          (ageOf (s.agents target) * s.accRewardPerAge / PRECISION -
            (s.agents target).rewardDebt)
          (s.totalAge - ageOf (s.agents target)) s) p = .ok
        ((ageOf (s.agents p) *
          (s.accRewardPerAge + (s.agents target).totalPaid * PRECISION /
            (ageOf (s.agents p1) + ageOf (s.agents p2))) / PRECISION -
          (s.agents p).rewardDebt) + (s.agents p).claimable) := by
    intro p hal hpt
    have hmem : p ∈ s.registry := hco.mem_of_alive hal
    have hbp : (s.agents p).birthEpoch ≠ 0 := hco.birth_pos p hmem
    have hdp := hco.debt_le p hal
    have hagp : (killEffect target
        (ageOf (s.agents target) * s.accRewardPerAge / PRECISION -
          (s.agents target).rewardDebt)
        (s.totalAge - ageOf (s.agents target)) s).agents p = s.agents p := by
      simp only [killEffect]
      rw [if_neg hpt]
    constructor
    · unfold pendingReward
      simp [hbp, hal, checkedSub, hdp]
      rfl
    · unfold pendingReward
      have hdp2 : (s.agents p).rewardDebt ≤
          ageOf (s.agents p) *
          (s.accRewardPerAge + (s.agents target).totalPaid * PRECISION /
            (ageOf (s.agents p1) + ageOf (s.agents p2))) / PRECISION := by
        refine le_trans hdp ?_
        apply Nat.div_le_div_right
        exact Nat.mul_le_mul_left _ (Nat.le_add_right _ _)
      simp [hagp, hacc', hbp, hal, checkedSub, hdp2]
      rfl
  obtain ⟨hv1, hw1⟩ := hpend p1 h1 hd1t
  obtain ⟨hv2, hw2⟩ := hpend p2 h2 hd2t
  have hmono1 : ageOf (s.agents p1) * s.accRewardPerAge / PRECISION ≤
      ageOf (s.agents p1) *
        (s.accRewardPerAge + (s.agents target).totalPaid * PRECISION /
          (ageOf (s.agents p1) + ageOf (s.agents p2))) / PRECISION := by
    apply Nat.div_le_div_right
    exact Nat.mul_le_mul_left _ (Nat.le_add_right _ _)
  have hmono2 : ageOf (s.agents p2) * s.accRewardPerAge / PRECISION ≤
      ageOf (s.agents p2) *
        (s.accRewardPerAge + (s.agents target).totalPaid * PRECISION /
          (ageOf (s.agents p1) + ageOf (s.agents p2))) / PRECISION := by
    apply Nat.div_le_div_right
    exact Nat.mul_le_mul_left _ (Nat.le_add_right _ _)
  have hd1b := accrual_delta_bounds (ageOf (s.agents p1)) s.accRewardPerAge
    ((s.agents target).totalPaid * PRECISION /
      (ageOf (s.agents p1) + ageOf (s.agents p2)))
  have hd2b := accrual_delta_bounds (ageOf (s.agents p2)) s.accRewardPerAge
    ((s.agents target).totalPaid * PRECISION /
      (ageOf (s.agents p1) + ageOf (s.agents p2)))
  have hTpos : 0 < ageOf (s.agents p1) + ageOf (s.agents p2) := by omega
  have hsu1 := share_upper (ageOf (s.agents p1))
    (ageOf (s.agents p1) + ageOf (s.agents p2))
    (s.agents target).totalPaid hTpos
  have hsl1 := share_lower (ageOf (s.agents p1))
    (ageOf (s.agents p1) + ageOf (s.agents p2))
    (s.agents target).totalPaid hTpos haP
  have hsu2 := share_upper (ageOf (s.agents p2))
    (ageOf (s.agents p1) + ageOf (s.agents p2))
    (s.agents target).totalPaid hTpos
  have hsl2 := share_lower (ageOf (s.agents p2))
    (ageOf (s.agents p1) + ageOf (s.agents p2))
    (s.agents target).totalPaid hTpos hbP
  have hdp1 := hco.debt_le p1 h1
  have hdp2 := hco.debt_le p2 h2
  refine ⟨_, _, _,
    (ageOf (s.agents p1) *
      (s.accRewardPerAge + (s.agents target).totalPaid * PRECISION /
        (ageOf (s.agents p1) + ageOf (s.agents p2))) / PRECISION -
      ageOf (s.agents p1) * s.accRewardPerAge / PRECISION),
    (ageOf (s.agents p2) *
      (s.accRewardPerAge + (s.agents target).totalPaid * PRECISION /
        (ageOf (s.agents p1) + ageOf (s.agents p2))) / PRECISION -
      ageOf (s.agents p2) * s.accRewardPerAge / PRECISION),
    hok, hv1, ?_, hv2, ?_, ?_, ?_, ?_, ?_⟩
  · rw [hw1]
    congr 1
    omega
  · rw [hw2]
    congr 1
    omega
  · exact le_trans (hd1b.2) (Nat.add_le_add_right hsu1 1)
  · exact le_trans hsl1 (Nat.add_le_add_right hd1b.1 1)
  · exact le_trans (hd2b.2) (Nat.add_le_add_right hsu2 1)
  · exact le_trans hsl2 (Nat.add_le_add_right hd2b.1 1)

/-- Three agents: 101 and 102 reach age 2 by heartbeating; 103 registers
at epoch 2 and never heartbeats (killable from epoch 4). -/
def traceB : List Op :=
  [.register walletFix 101 1 1, .register walletFix 102 2 1,
   .heartbeat 101 2, .heartbeat 102 2, .register walletFix 103 3 2]

/-- The state after `traceB`. -/
def stateB : State := execTrace cfgFix 9 traceB

/-- C3 witness: killing 103 (pool contribution 9000) with survivors of
ages 2 and 2 raises each survivor's pending reward by 9000*2/4 = 4500
within one unit. -/
theorem claim_C3_witness :
    ∃ s' v1 v2 d1 d2,
      kill 103 4 stateB = .ok s' ∧
      pendingReward stateB 101 = .ok v1 ∧
      pendingReward s' 101 = .ok (v1 + d1) ∧
      pendingReward stateB 102 = .ok v2 ∧
      pendingReward s' 102 = .ok (v2 + d2) ∧
      d1 ≤ (stateB.agents 103).totalPaid * ageOf (stateB.agents 101) /
        (ageOf (stateB.agents 101) + ageOf (stateB.agents 102)) + 1 ∧
      (stateB.agents 103).totalPaid * ageOf (stateB.agents 101) /
        (ageOf (stateB.agents 101) + ageOf (stateB.agents 102)) ≤ d1 + 1 ∧
      d2 ≤ (stateB.agents 103).totalPaid * ageOf (stateB.agents 102) /
        (ageOf (stateB.agents 101) + ageOf (stateB.agents 102)) + 1 ∧
      (stateB.agents 103).totalPaid * ageOf (stateB.agents 102) /
        (ageOf (stateB.agents 101) + ageOf (stateB.agents 102)) ≤ d2 + 1 := by
  have hco : Coherent stateB :=
    @coherent_execTrace cfgFix 9 traceB (by decide)
  exact claim_C3 hco (by decide) (by decide) (by decide) (by decide)
    (by decide) (by decide) (by decide) (by decide) (by decide) (by decide)

-- ─── C1: conservation of funds ─────────────────────────────────────────

/-- The ledger sum exactly as the specification words it: the settled
`claimable` of every participant ever registered, plus the
`totalPaid` of the flag-alive ones, plus the treasury balance. -/
def claimedLedgerSum (s : State) : Nat :=
  (s.registry.map fun p => (s.agents p).claimable).sum +
  (s.registry.map fun p =>
    if (s.agents p).alive then (s.agents p).totalPaid else 0).sum +
  s.treasuryBalance

/-- Everything the contract owes one participant right now: the settled
`claimable`, plus — for a living one — the unsettled accumulator
entitlement `age*acc/PRECISION - rewardDebt` and the `totalPaid` still
staked in the redistribution pool. -/
def agentWorth (acc : Nat) (a : Agent) : Nat :=
  a.claimable +
    (if a.alive then
      (ageOf a * acc / PRECISION - a.rewardDebt) + a.totalPaid
     else 0)

/-- The full internal ledger: owed amounts over the registry plus the
treasury balance. -/
def ledgerSum (s : State) : Nat :=
  (s.registry.map fun p => agentWorth s.accRewardPerAge (s.agents p)).sum +
    s.treasuryBalance

/-- Net inflow minus the internal ledger, as an integer. -/
def ledgerGap (s : State) : Int :=
  ((s.totalIn : Int) - (s.totalOut : Int)) - (ledgerSum s : Int)

theorem sum_map_add_distrib (l : List Nat) (f g : Nat → Nat) :
    (l.map fun x => f x + g x).sum = (l.map f).sum + (l.map g).sum := by
  induction l with
  | nil => rfl
  | cons x t ih =>
    simp only [List.map_cons, List.sum_cons, ih]
    omega

theorem sum_map_one (l : List Nat) : (l.map fun _ => 1).sum = l.length := by
  induction l with
  | nil => rfl
  | cons x t ih =>
    simp only [List.map_cons, List.sum_cons, List.length_cons, ih]
    omega

theorem sum_map_mul (l : List Nat) (d : Nat) :
    (l.map fun a => a * d).sum = l.sum * d := by
  induction l with
  | nil => simp
  | cons x t ih =>
    simp only [List.map_cons, List.sum_cons, ih]
    ring

theorem sum_map_cons_erase {l : List Nat} {x : Nat} (hx : x ∈ l)
    (f : Nat → Nat) : (l.map f).sum = f x + ((l.erase x).map f).sum := by
  simpa using ((List.perm_cons_erase hx).map f).sum_eq

theorem treasuryFee_le (c : Config) : treasuryFee c ≤ c.costPerEpoch := by
  unfold treasuryFee
  calc c.costPerEpoch * TREASURY_BPS / BPS_DENOMINATOR
      ≤ c.costPerEpoch * BPS_DENOMINATOR / BPS_DENOMINATOR :=
        Nat.div_le_div_right (Nat.mul_le_mul_left _ (by decide))
    _ = c.costPerEpoch := Nat.mul_div_cancel _ (by decide)

theorem poolAmount_add_fee (c : Config) :
    poolAmount c + treasuryFee c = c.costPerEpoch := by
  have := treasuryFee_le c
  unfold poolAmount
  omega

theorem poolAmount_mod (c : Config) (hc : c.valid) :
    poolAmount c % U96 = poolAmount c := by
  apply Nat.mod_eq_of_lt
  have h1 : poolAmount c ≤ c.costPerEpoch := Nat.sub_le _ _
  have h2 := hc.2.2
  have h3 : 1 ≤ U96 := by decide
  omega

theorem agentWorth_registerAgent (c : Config) (hc : c.valid)
    (agentId epoch acc prev : Nat) :
    agentWorth acc (registerAgent c agentId epoch acc prev) =
      prev + poolAmount c := by
  simp only [agentWorth, registerAgent, ageOf, Nat.sub_self, Nat.zero_add,
    Nat.one_mul, if_true, poolAmount_mod c hc]

/-- C1 counterexample: after `traceA` (two registrations at epoch 1, one
kill at epoch 3) the specification's ledger sum — settled `claimable`
balances plus living participants' `totalPaid` plus the treasury balance
— falls short of net inflow by 9000 units (the dead agent's contribution
parked in the `accRewardPerAge` accumulator, not yet settled into any
`claimable`), far beyond the claimed 2-units-per-death tolerance. -/
theorem claim_C1_counterexample :
    ValidTrace traceA ∧ stateA.totalOut = 0 ∧ stateA.totalDead = 1 ∧
    claimedLedgerSum stateA + 2 * stateA.totalDead <
      stateA.totalIn - stateA.totalOut := by
  decide

theorem ledger_register {c : Config} {wallet : Nat → Nat}
    {sender agentId epoch : Nat} {s s' : State}
    (hok : register c wallet sender agentId epoch s = .ok s')
    (hco : Coherent s) (hc : c.valid) :
    ledgerSum s' = ledgerSum s + c.costPerEpoch ∧
    s'.totalIn = s.totalIn + c.costPerEpoch ∧
    s'.totalOut = s.totalOut ∧ s'.dustBound = s.dustBound := by
  obtain ⟨hw, hbind, halive, hid, hs'⟩ := register_ok_iff.mp hok
  subst hs'
  refine ⟨?_, rfl, rfl, rfl⟩
  by_cases hnew : (s.agents sender).birthEpoch = 0
  · -- first registration: sender appended to the registry
    have hnm : sender ∉ s.registry := fun hm => hco.birth_pos sender hm hnew
    have hcl0 : (s.agents sender).claimable = 0 := by
      rw [hco.off_reg sender hnm]
      rfl
    simp only [ledgerSum, registerEffect, if_pos hnew]
    rw [List.map_append, List.sum_append]
    simp only [List.map_singleton, List.sum_singleton, if_pos rfl, if_true]
    have h1 : ∀ p ∈ s.registry,
        agentWorth s.accRewardPerAge
          (if p = sender then registerAgent c agentId epoch
              s.accRewardPerAge (s.agents sender).claimable
            else s.agents p) =
        agentWorth s.accRewardPerAge (s.agents p) := by
      intro p hp
      have hps : p ≠ sender := fun h => hnm (h ▸ hp)
      simp [hps]
    rw [List.map_congr_left h1, agentWorth_registerAgent c hc, hcl0]
    have := poolAmount_add_fee c
    omega
  · -- re-registration of a dead agent: registry unchanged
    have hmem : sender ∈ s.registry := hco.mem_of_birth_pos hnew
    simp only [ledgerSum, registerEffect, if_neg hnew]
    have hupd := sum_map_update s.registry hco.nodup hmem
      (fun p => agentWorth s.accRewardPerAge
        (if p = sender then registerAgent c agentId epoch
            s.accRewardPerAge (s.agents sender).claimable
          else s.agents p))
      (fun p => agentWorth s.accRewardPerAge (s.agents p))
      (fun p _ hps => by simp [hps])
    simp only [if_pos rfl, if_true] at hupd
    rw [agentWorth_registerAgent c hc] at hupd
    have hwd : agentWorth s.accRewardPerAge (s.agents sender) =
        (s.agents sender).claimable := by
      simp [agentWorth, halive]
    rw [hwd] at hupd
    have := poolAmount_add_fee c
    omega

theorem ledger_heartbeat {c : Config} {sender epoch : Nat} {s s' : State}
    (hok : heartbeat c sender epoch s = .ok s')
    (hco : Coherent s)
    (hclk : (s.agents sender).lastHeartbeatEpoch ≤ epoch)
    (heU : epoch < U64)
    (hIn : s.totalIn + c.costPerEpoch < U96) :
    ledgerSum s' = ledgerSum s + c.costPerEpoch ∧
    s'.totalIn = s.totalIn + c.costPerEpoch ∧
    s'.totalOut = s.totalOut ∧ s'.dustBound = s.dustBound := by
  obtain ⟨hb0, halive, hne, hle, hdebt, hs'⟩ := heartbeat_ok_iff.mp hok
  have hmem : sender ∈ s.registry := hco.mem_of_birth_pos hb0
  have hmod : epoch % U64 = epoch := Nat.mod_eq_of_lt heU
  have hble : (s.agents sender).birthEpoch ≤
      (s.agents sender).lastHeartbeatEpoch := hco.birth_le sender
  subst hs'
  refine ⟨?_, rfl, rfl, rfl⟩
  set pd := ageOf (s.agents sender) * s.accRewardPerAge / PRECISION -
    (s.agents sender).rewardDebt with hpd
  set HA := heartbeatAgent c epoch pd s.accRewardPerAge (s.agents sender)
    with hHA
  have e1 : HA.birthEpoch = (s.agents sender).birthEpoch := rfl
  have e2 : HA.lastHeartbeatEpoch = epoch % U64 := rfl
  have e3 : HA.alive = (s.agents sender).alive := rfl
  have e4 : HA.rewardDebt =
      (ageOf (s.agents sender) + 1) * s.accRewardPerAge / PRECISION := rfl
  have e5 : HA.totalPaid =
      ((s.agents sender).totalPaid + poolAmount c) % U96 := rfl
  have e7 : HA.claimable = (s.agents sender).claimable + pd := rfl
  have hage : ageOf HA = ageOf (s.agents sender) + 1 := by
    simp only [ageOf, e1, e2, hmod]
    omega
  have halive' : HA.alive = true := by rw [e3, halive]
  have hpaid : ((s.agents sender).totalPaid + poolAmount c) % U96 =
      (s.agents sender).totalPaid + poolAmount c := by
    apply Nat.mod_eq_of_lt
    have h1 := hco.paid_le sender
    have h2 : poolAmount c ≤ c.costPerEpoch := Nat.sub_le _ _
    omega
  have hworth : agentWorth s.accRewardPerAge HA =
      agentWorth s.accRewardPerAge (s.agents sender) + poolAmount c := by
    simp only [agentWorth, halive, halive', if_true, hage, e4, e5, e7, hpaid]
    omega
  simp only [ledgerSum, heartbeatEffect]
  rw [← hHA]
  have hupd := sum_map_update s.registry hco.nodup hmem
    (fun p => agentWorth s.accRewardPerAge
      (if p = sender then HA else s.agents p))
    (fun p => agentWorth s.accRewardPerAge (s.agents p))
    (fun p _ hps => by simp [hps])
  simp only [if_pos rfl, if_true] at hupd
  rw [hworth] at hupd
  have := poolAmount_add_fee c
  omega

theorem ledger_claim {sender : Nat} {s s' : State}
    (hok : claim sender s = .ok s') (hco : Coherent s) :
    ∃ payout, ledgerSum s = ledgerSum s' + payout ∧
      s'.totalOut = s.totalOut + payout ∧
      s'.totalIn = s.totalIn ∧ s'.dustBound = s.dustBound := by
  obtain ⟨hb0, hcase⟩ := claim_ok_iff.mp hok
  have hmem : sender ∈ s.registry := hco.mem_of_birth_pos hb0
  rcases hcase with ⟨halive, hdebt, hpay, hs'⟩ | ⟨hdead, hpay, hs'⟩
  · -- alive claimer
    subst hs'
    refine ⟨ageOf (s.agents sender) * s.accRewardPerAge / PRECISION -
      (s.agents sender).rewardDebt + (s.agents sender).claimable,
      ?_, rfl, rfl, rfl⟩
    simp only [ledgerSum, claimEffectAlive]
    have hupd := sum_map_update s.registry hco.nodup hmem
      (fun p => agentWorth s.accRewardPerAge
        (if p = sender then claimAgentAlive s.accRewardPerAge
            (s.agents sender)
          else s.agents p))
      (fun p => agentWorth s.accRewardPerAge (s.agents p))
      (fun p _ hps => by simp [hps])
    simp only [if_pos rfl, if_true] at hupd
    have hwd : agentWorth s.accRewardPerAge
        (claimAgentAlive s.accRewardPerAge (s.agents sender)) =
        (s.agents sender).totalPaid := by
      simp [agentWorth, claimAgentAlive, ageOf, halive]
    have hwo : agentWorth s.accRewardPerAge (s.agents sender) =
        (s.agents sender).claimable +
        ((ageOf (s.agents sender) * s.accRewardPerAge / PRECISION -
          (s.agents sender).rewardDebt) + (s.agents sender).totalPaid) := by
      simp [agentWorth, halive]
    rw [hwd, hwo] at hupd
    omega
  · -- dead claimer
    subst hs'
    refine ⟨(s.agents sender).claimable, ?_, rfl, rfl, rfl⟩
    simp only [ledgerSum, claimEffectDead]
    have hupd := sum_map_update s.registry hco.nodup hmem
      (fun p => agentWorth s.accRewardPerAge
        (if p = sender then claimAgentDead (s.agents sender)
          else s.agents p))
      (fun p => agentWorth s.accRewardPerAge (s.agents p))
      (fun p _ hps => by simp [hps])
    simp only [if_pos rfl, if_true] at hupd
    have hwd : agentWorth s.accRewardPerAge
        (claimAgentDead (s.agents sender)) = 0 := by
      simp [agentWorth, claimAgentDead, hdead]
    have hwo : agentWorth s.accRewardPerAge (s.agents sender) =
        (s.agents sender).claimable := by
      simp [agentWorth, hdead]
    rw [hwd, hwo] at hupd
    omega

theorem ledger_claimTreasury {sender : Nat} {s s' : State}
    (hok : claimTreasury sender s = .ok s') :
    ledgerSum s = ledgerSum s' + s.treasuryBalance ∧
      s'.totalOut = s.totalOut + s.treasuryBalance ∧
      s'.totalIn = s.totalIn ∧ s'.dustBound = s.dustBound := by
  unfold claimTreasury at hok
  split_ifs at hok
  simp only [Except.ok.injEq] at hok
  subst hok
  refine ⟨?_, rfl, rfl, rfl⟩
  simp [ledgerSum]

theorem ledger_transferTreasury {sender newTreasury : Nat} {s s' : State}
    (hok : transferTreasury sender newTreasury s = .ok s') :
    ledgerSum s' = ledgerSum s ∧
      s'.totalOut = s.totalOut ∧
      s'.totalIn = s.totalIn ∧ s'.dustBound = s.dustBound := by
  unfold transferTreasury at hok
  split_ifs at hok
  simp only [Except.ok.injEq] at hok
  subst hok
  exact ⟨rfl, rfl, rfl, rfl⟩

/-- The ledger delta of a successful `kill`: the target's staked
`totalPaid` (the redistributed reward `r`) leaves the target's owed
amount; the survivors' unsettled entitlements rise by a total `S` with
`|S - r| ≤ n`, where `n` — the number of participants left alive — is
exactly the amount added to the ghost `dustBound`. -/
theorem ledger_kill {target epoch : Nat} {s s' : State}
    (hok : kill target epoch s = .ok s')
    (hco : Coherent s) (hAge : s.totalAge ≤ PRECISION) :
    ∃ S n, ledgerSum s + S = ledgerSum s' + (s.agents target).totalPaid ∧
      s'.dustBound = s.dustBound + n ∧
      S ≤ (s.agents target).totalPaid + n ∧
      (s.agents target).totalPaid ≤ S + n ∧
      s'.totalIn = s.totalIn ∧ s'.totalOut = s.totalOut := by
  obtain ⟨hb0, halive, hkb, hdebt, hageLe, hs'⟩ := kill_ok_iff.mp hok
  have hmem : target ∈ s.registry := hco.mem_of_birth_pos hb0
  subst hs'
  set pd := ageOf (s.agents target) * s.accRewardPerAge / PRECISION -
    (s.agents target).rewardDebt with hpd
  set nt := s.totalAge - ageOf (s.agents target) with hnt
  set KA := killAgent pd nt (s.agents target) with hKA
  have k3 : KA.alive = false := rfl
  have k7 : KA.claimable = (s.agents target).claimable + pd +
      (if nt > 0 then 0 else (s.agents target).totalPaid) := rfl
  have hworthT : agentWorth s.accRewardPerAge (s.agents target) =
      (s.agents target).claimable + (pd + (s.agents target).totalPaid) := by
    simp only [agentWorth, halive, if_true, hpd]
  rcases Nat.eq_zero_or_pos nt with hzero | hpos
  · -- the target was the last living participant: nothing is distributed,
    -- the reward is parked in the target's own claimable, no dust at all
    have hnpos : ¬ 0 < nt := by omega
    have hworthKA : agentWorth s.accRewardPerAge KA =
        (s.agents target).claimable + pd + (s.agents target).totalPaid := by
      simp only [agentWorth, k3, Bool.false_eq_true, if_false, k7,
        gt_iff_lt, if_neg hnpos]
      omega
    have hmain : ledgerSum s + (s.agents target).totalPaid =
        ledgerSum (killEffect target pd nt s) +
          (s.agents target).totalPaid := by
      have hupd := sum_map_update s.registry hco.nodup hmem
        (fun p => agentWorth s.accRewardPerAge
          (if p = target then KA else s.agents p))
        (fun p => agentWorth s.accRewardPerAge (s.agents p))
        (fun p _ hps => by simp [hps])
      simp only [if_pos rfl, if_true] at hupd
      rw [hworthKA, hworthT] at hupd
      simp only [ledgerSum, killEffect]
      rw [← hKA]
      simp only [gt_iff_lt, if_neg hnpos]
      omega
    refine ⟨(s.agents target).totalPaid, 0, hmain, ?_, by omega, by omega,
      rfl, rfl⟩
    simp [killEffect, hnpos]
  · -- at least one participant survives: the reward is distributed
    -- through the accumulator, each survivor's entitlement floored
    set D := (s.agents target).totalPaid * PRECISION / nt with hD
    have hnle : nt ≤ PRECISION := by omega
    -- the survivors' ages sum to the decremented totalAge
    have hTA : (((s.registry.erase target).filter fun p =>
        (s.agents p).alive).map fun p => ageOf (s.agents p)).sum = nt := by
      have h1 := hco.age_sum
      unfold aliveAgeSum at h1
      rw [sum_map_cons_erase hmem
        (fun p => if (s.agents p).alive then ageOf (s.agents p) else 0)]
        at h1
      simp only [halive, if_true] at h1
      have h2 := sum_filter_eq_sum_ite (s.registry.erase target)
        (fun p => (s.agents p).alive) (fun p => ageOf (s.agents p))
      omega
    have hAne : ((s.registry.erase target).filter fun p =>
        (s.agents p).alive) ≠ [] := by
      intro h
      rw [h] at hTA
      simp at hTA
      omega
    -- each remaining participant's owed amount grows by its accrual delta
    have hpoint : ∀ p ∈ s.registry.erase target,
        agentWorth (s.accRewardPerAge + D) (s.agents p) =
        agentWorth s.accRewardPerAge (s.agents p) +
        (if (s.agents p).alive then
          ageOf (s.agents p) * (s.accRewardPerAge + D) / PRECISION -
          ageOf (s.agents p) * s.accRewardPerAge / PRECISION
         else 0) := by
      intro p hp
      by_cases hal : (s.agents p).alive = true
      · have hd := hco.debt_le p hal
        have hmono : ageOf (s.agents p) * s.accRewardPerAge / PRECISION ≤
            ageOf (s.agents p) * (s.accRewardPerAge + D) / PRECISION :=
          Nat.div_le_div_right
            (Nat.mul_le_mul_left _ (Nat.le_add_right _ _))
        simp only [agentWorth, hal, if_true]
        omega
      · rw [Bool.not_eq_true] at hal
        simp only [agentWorth, hal, Bool.false_eq_true, if_false]
    have hmap1 : ((s.registry.erase target).map fun p =>
        agentWorth (s.accRewardPerAge + D) (s.agents p)).sum =
        ((s.registry.erase target).map fun p =>
          agentWorth s.accRewardPerAge (s.agents p)).sum +
        ((s.registry.erase target).map fun p =>
          if (s.agents p).alive then
            ageOf (s.agents p) * (s.accRewardPerAge + D) / PRECISION -
            ageOf (s.agents p) * s.accRewardPerAge / PRECISION
          else 0).sum := by
      rw [sum_map_ext (s.registry.erase target)
        (fun p => agentWorth (s.accRewardPerAge + D) (s.agents p))
        (fun p => agentWorth s.accRewardPerAge (s.agents p) +
          (if (s.agents p).alive then
            ageOf (s.agents p) * (s.accRewardPerAge + D) / PRECISION -
            ageOf (s.agents p) * s.accRewardPerAge / PRECISION
          else 0)) hpoint]
      exact sum_map_add_distrib _ _ _
    have hSsum : ((s.registry.erase target).map fun p =>
        if (s.agents p).alive then
          ageOf (s.agents p) * (s.accRewardPerAge + D) / PRECISION -
          ageOf (s.agents p) * s.accRewardPerAge / PRECISION
        else 0).sum =
        (((s.registry.erase target).filter fun p =>
          (s.agents p).alive).map fun p =>
          ageOf (s.agents p) * (s.accRewardPerAge + D) / PRECISION -
          ageOf (s.agents p) * s.accRewardPerAge / PRECISION).sum :=
      (sum_filter_eq_sum_ite (s.registry.erase target) _ _).symm
    have hworthKA : agentWorth (s.accRewardPerAge + D) KA =
        (s.agents target).claimable + pd := by
      simp only [agentWorth, k3, Bool.false_eq_true, if_false, k7,
        gt_iff_lt, if_pos hpos]
      omega
    have hERext : ((s.registry.erase target).map fun p =>
        agentWorth (s.accRewardPerAge + D)
          (if p = target then KA else s.agents p)).sum =
        ((s.registry.erase target).map fun p =>
          agentWorth (s.accRewardPerAge + D) (s.agents p)).sum := by
      apply sum_map_ext
      intro p hp
      have hps : p ≠ target := ((hco.nodup.mem_erase_iff).mp hp).1
      simp [hps]
    have hmain : ledgerSum s +
        (((s.registry.erase target).filter fun p =>
          (s.agents p).alive).map fun p =>
          ageOf (s.agents p) * (s.accRewardPerAge + D) / PRECISION -
          ageOf (s.agents p) * s.accRewardPerAge / PRECISION).sum =
        ledgerSum (killEffect target pd nt s) +
          (s.agents target).totalPaid := by
      simp only [ledgerSum, killEffect]
      rw [← hKA]
      simp only [gt_iff_lt, if_pos hpos]
      rw [← hD]
      rw [sum_map_cons_erase hmem
        (fun p => agentWorth s.accRewardPerAge (s.agents p))]
      rw [sum_map_cons_erase hmem
        (fun p => agentWorth (s.accRewardPerAge + D)
          (if p = target then KA else s.agents p))]
      simp only [if_pos rfl, if_true]
      rw [hworthKA, hworthT, hERext, hmap1, hSsum]
      omega
    -- dust bookkeeping: the increment is the survivor count
    have hfe : ((s.registry.erase target).filter fun p =>
        (if p = target then KA else s.agents p).alive) =
        ((s.registry.erase target).filter fun p => (s.agents p).alive) := by
      apply List.filter_congr
      intro p hp
      have hps : p ≠ target := ((hco.nodup.mem_erase_iff).mp hp).1
      simp [hps]
    have hcount : (s.registry.filter fun p =>
        (if p = target then KA else s.agents p).alive).length =
        ((s.registry.erase target).filter fun p =>
          (s.agents p).alive).length := by
      have hperm := (List.perm_cons_erase hmem).filter
        (fun p => (if p = target then KA else s.agents p).alive)
      have hlen := hperm.length_eq
      rw [List.filter_cons_of_neg, hfe] at hlen
      · exact hlen
      · simp [k3]
    have hdust : (killEffect target pd nt s).dustBound = s.dustBound +
        ((s.registry.erase target).filter fun p =>
          (s.agents p).alive).length := by
      simp only [killEffect]
      rw [← hKA]
      simp only [gt_iff_lt, if_pos hpos]
      rw [hcount]
    -- floor bounds: the distributed total S lies within the survivor
    -- count of the reward r
    have hages_mul : ((((s.registry.erase target).filter fun p =>
        (s.agents p).alive).map fun p => ageOf (s.agents p)).map
        fun a => a * D) =
        (((s.registry.erase target).filter fun p =>
          (s.agents p).alive).map fun p => ageOf (s.agents p) * D) := by
      rw [List.map_map]
      rfl
    have hages_muldiv : (((((s.registry.erase target).filter fun p =>
        (s.agents p).alive).map fun p => ageOf (s.agents p) * D)).map
        fun x => x / PRECISION) =
        (((s.registry.erase target).filter fun p =>
          (s.agents p).alive).map fun p =>
          ageOf (s.agents p) * D / PRECISION) := by
      rw [List.map_map]
      rfl
    have hSlow : ((((s.registry.erase target).filter fun p =>
        (s.agents p).alive)).map fun p =>
        ageOf (s.agents p) * D / PRECISION).sum ≤
        (((s.registry.erase target).filter fun p =>
          (s.agents p).alive).map fun p =>
          ageOf (s.agents p) * (s.accRewardPerAge + D) / PRECISION -
          ageOf (s.agents p) * s.accRewardPerAge / PRECISION).sum :=
      List.sum_le_sum fun p _ =>
        (accrual_delta_bounds (ageOf (s.agents p)) s.accRewardPerAge D).1
    have hShigh : (((s.registry.erase target).filter fun p =>
        (s.agents p).alive).map fun p =>
        ageOf (s.agents p) * (s.accRewardPerAge + D) / PRECISION -
        ageOf (s.agents p) * s.accRewardPerAge / PRECISION).sum ≤
        ((((s.registry.erase target).filter fun p =>
          (s.agents p).alive)).map fun p =>
          ageOf (s.agents p) * D / PRECISION).sum +
        (((s.registry.erase target).filter fun p =>
          (s.agents p).alive)).length := by
      have h1 : (((s.registry.erase target).filter fun p =>
          (s.agents p).alive).map fun p =>
          ageOf (s.agents p) * (s.accRewardPerAge + D) / PRECISION -
          ageOf (s.agents p) * s.accRewardPerAge / PRECISION).sum ≤
          (((s.registry.erase target).filter fun p =>
            (s.agents p).alive).map fun p =>
            ageOf (s.agents p) * D / PRECISION + 1).sum :=
        List.sum_le_sum fun p _ =>
          (accrual_delta_bounds (ageOf (s.agents p)) s.accRewardPerAge D).2
      have h2 := sum_map_add_distrib
        ((s.registry.erase target).filter fun p => (s.agents p).alive)
        (fun p => ageOf (s.agents p) * D / PRECISION) (fun _ => 1)
      have h3 := sum_map_one
        ((s.registry.erase target).filter fun p => (s.agents p).alive)
      omega
    have hL_le : ((((s.registry.erase target).filter fun p =>
        (s.agents p).alive)).map fun p =>
        ageOf (s.agents p) * D / PRECISION).sum ≤ nt * D / PRECISION := by
      have h := sum_div_le_div_sum
        ((((s.registry.erase target).filter fun p =>
          (s.agents p).alive)).map fun p => ageOf (s.agents p) * D)
        PRECISION
      rw [hages_muldiv, ← hages_mul, sum_map_mul, hTA] at h
      exact h
    have hL_ge : nt * D / PRECISION + 1 ≤
        ((((s.registry.erase target).filter fun p =>
          (s.agents p).alive)).map fun p =>
          ageOf (s.agents p) * D / PRECISION).sum +
        (((s.registry.erase target).filter fun p =>
          (s.agents p).alive)).length := by
      have hne2 : ((((s.registry.erase target).filter fun p =>
          (s.agents p).alive)).map fun p =>
          ageOf (s.agents p) * D) ≠ [] := by
        intro hnil
        apply hAne
        have hl := congrArg List.length hnil
        rw [List.length_map] at hl
        exact List.length_eq_zero.mp hl
      have h := div_sum_le_sum_div
        ((((s.registry.erase target).filter fun p =>
          (s.agents p).alive)).map fun p => ageOf (s.agents p) * D)
        PRECISION hne2
      rw [hages_muldiv, ← hages_mul, sum_map_mul, hTA, List.length_map,
        List.length_map] at h
      exact h
    have hTD_le : nt * D / PRECISION ≤ (s.agents target).totalPaid := by
      have h1 : nt * D ≤ (s.agents target).totalPaid * PRECISION := by
        rw [hD]
        calc nt * ((s.agents target).totalPaid * PRECISION / nt)
            = ((s.agents target).totalPaid * PRECISION / nt) * nt :=
              Nat.mul_comm _ _
          _ ≤ (s.agents target).totalPaid * PRECISION :=
              Nat.div_mul_le_self _ _
      calc nt * D / PRECISION
          ≤ (s.agents target).totalPaid * PRECISION / PRECISION :=
            Nat.div_le_div_right h1
        _ = (s.agents target).totalPaid :=
            Nat.mul_div_cancel _ PRECISION_pos
    have hr_le : (s.agents target).totalPaid ≤ nt * D / PRECISION + 1 := by
      have h1 : (s.agents target).totalPaid * PRECISION < nt * D + nt := by
        have hlt := Nat.lt_mul_div_succ
          ((s.agents target).totalPaid * PRECISION) hpos
        calc (s.agents target).totalPaid * PRECISION
            < nt * ((s.agents target).totalPaid * PRECISION / nt + 1) := hlt
          _ = nt * D + nt := by rw [hD]; ring
      rcases Nat.eq_zero_or_pos (s.agents target).totalPaid with hr0 | hr1
      · omega
      · have h2 : ((s.agents target).totalPaid - 1) * PRECISION ≤ nt * D := by
          have h3 : ((s.agents target).totalPaid - 1) * PRECISION =
              (s.agents target).totalPaid * PRECISION - PRECISION := by
            rw [Nat.sub_mul, Nat.one_mul]
          have hP := PRECISION_pos
          omega
        have h4 : (s.agents target).totalPaid - 1 ≤ nt * D / PRECISION :=
          (Nat.le_div_iff_mul_le PRECISION_pos).mpr h2
        omega
    exact ⟨_, _, hmain, hdust, by omega, by omega, rfl, rfl⟩

theorem totalIn_applyOp {c : Config} (s : State) (op : Op) :
    s.totalIn ≤ (applyOp c s op).totalIn := by
  cases op with
  | register wallet sender agentId epoch =>
    cases hstep : register c wallet sender agentId epoch s with
    | error e =>
      have ha : applyOp c s (Op.register wallet sender agentId epoch) = s :=
        applyOp_eq_of_error hstep
      rw [ha]
    | ok s1 =>
      have ha : applyOp c s (Op.register wallet sender agentId epoch) = s1 :=
        applyOp_eq_of_ok hstep
      rw [ha]
      obtain ⟨-, -, -, -, hs1⟩ := register_ok_iff.mp hstep
      subst hs1
      exact Nat.le_add_right _ _
  | heartbeat sender epoch =>
    cases hstep : heartbeat c sender epoch s with
    | error e =>
      have ha : applyOp c s (Op.heartbeat sender epoch) = s :=
        applyOp_eq_of_error hstep
      rw [ha]
    | ok s1 =>
      have ha : applyOp c s (Op.heartbeat sender epoch) = s1 :=
        applyOp_eq_of_ok hstep
      rw [ha]
      obtain ⟨-, -, -, -, -, hs1⟩ := heartbeat_ok_iff.mp hstep
      subst hs1
      exact Nat.le_add_right _ _
  | kill target epoch =>
    cases hstep : kill target epoch s with
    | error e =>
      have ha : applyOp c s (Op.kill target epoch) = s :=
        applyOp_eq_of_error hstep
      rw [ha]
    | ok s1 =>
      have ha : applyOp c s (Op.kill target epoch) = s1 :=
        applyOp_eq_of_ok hstep
      rw [ha]
      obtain ⟨-, -, -, -, -, hs1⟩ := kill_ok_iff.mp hstep
      subst hs1
      exact Nat.le_refl _
  | claim sender epoch =>
    cases hstep : claim sender s with
    | error e =>
      have ha : applyOp c s (Op.claim sender epoch) = s :=
        applyOp_eq_of_error hstep
      rw [ha]
    | ok s1 =>
      have ha : applyOp c s (Op.claim sender epoch) = s1 :=
        applyOp_eq_of_ok hstep
      rw [ha]
      obtain ⟨-, hcase⟩ := claim_ok_iff.mp hstep
      rcases hcase with ⟨-, -, -, hs1⟩ | ⟨-, -, hs1⟩ <;> subst hs1 <;>
        exact Nat.le_refl _
  | claimTreasury sender epoch =>
    cases hstep : claimTreasury sender s with
    | error e =>
      have ha : applyOp c s (Op.claimTreasury sender epoch) = s :=
        applyOp_eq_of_error hstep
      rw [ha]
    | ok s1 =>
      have ha : applyOp c s (Op.claimTreasury sender epoch) = s1 :=
        applyOp_eq_of_ok hstep
      rw [ha]
      unfold claimTreasury at hstep
      split_ifs at hstep
      simp only [Except.ok.injEq] at hstep
      subst hstep
      exact Nat.le_refl _
  | transferTreasury sender newTreasury epoch =>
    cases hstep : transferTreasury sender newTreasury s with
    | error e =>
      have ha : applyOp c s (Op.transferTreasury sender newTreasury epoch) = s :=
        applyOp_eq_of_error hstep
      rw [ha]
    | ok s1 =>
      have ha : applyOp c s (Op.transferTreasury sender newTreasury epoch) = s1 :=
        applyOp_eq_of_ok hstep
      rw [ha]
      unfold transferTreasury at hstep
      split_ifs at hstep
      simp only [Except.ok.injEq] at hstep
      subst hstep
      exact Nat.le_refl _

theorem totalIn_foldl {c : Config} (ops : List Op) :
    ∀ s : State, s.totalIn ≤ (ops.foldl (applyOp c) s).totalIn := by
  induction ops with
  | nil =>
    intro s
    exact Nat.le_refl _
  | cons op rest ih =>
    intro s
    simp only [List.foldl_cons]
    exact le_trans (totalIn_applyOp s op) (ih (applyOp c s op))

theorem totalAge_applyOp {c : Config} (s : State) (op : Op) :
    (applyOp c s op).totalAge ≤ s.totalAge + 1 := by
  cases op with
  | register wallet sender agentId epoch =>
    cases hstep : register c wallet sender agentId epoch s with
    | error e =>
      have ha : applyOp c s (Op.register wallet sender agentId epoch) = s :=
        applyOp_eq_of_error hstep
      rw [ha]
      exact Nat.le_succ _
    | ok s1 =>
      have ha : applyOp c s (Op.register wallet sender agentId epoch) = s1 :=
        applyOp_eq_of_ok hstep
      rw [ha]
      obtain ⟨-, -, -, -, hs1⟩ := register_ok_iff.mp hstep
      subst hs1
      exact Nat.le_refl _
  | heartbeat sender epoch =>
    cases hstep : heartbeat c sender epoch s with
    | error e =>
      have ha : applyOp c s (Op.heartbeat sender epoch) = s :=
        applyOp_eq_of_error hstep
      rw [ha]
      exact Nat.le_succ _
    | ok s1 =>
      have ha : applyOp c s (Op.heartbeat sender epoch) = s1 :=
        applyOp_eq_of_ok hstep
      rw [ha]
      obtain ⟨-, -, -, -, -, hs1⟩ := heartbeat_ok_iff.mp hstep
      subst hs1
      exact Nat.le_refl _
  | kill target epoch =>
    cases hstep : kill target epoch s with
    | error e =>
      have ha : applyOp c s (Op.kill target epoch) = s :=
        applyOp_eq_of_error hstep
      rw [ha]
      exact Nat.le_succ _
    | ok s1 =>
      have ha : applyOp c s (Op.kill target epoch) = s1 :=
        applyOp_eq_of_ok hstep
      rw [ha]
      obtain ⟨-, -, -, -, -, hs1⟩ := kill_ok_iff.mp hstep
      subst hs1
      simp only [killEffect]
      omega
  | claim sender epoch =>
    cases hstep : claim sender s with
    | error e =>
      have ha : applyOp c s (Op.claim sender epoch) = s :=
        applyOp_eq_of_error hstep
      rw [ha]
      exact Nat.le_succ _
    | ok s1 =>
      have ha : applyOp c s (Op.claim sender epoch) = s1 :=
        applyOp_eq_of_ok hstep
      rw [ha]
      obtain ⟨-, hcase⟩ := claim_ok_iff.mp hstep
      rcases hcase with ⟨-, -, -, hs1⟩ | ⟨-, -, hs1⟩ <;> subst hs1 <;>
        exact Nat.le_succ _
  | claimTreasury sender epoch =>
    cases hstep : claimTreasury sender s with
    | error e =>
      have ha : applyOp c s (Op.claimTreasury sender epoch) = s :=
        applyOp_eq_of_error hstep
      rw [ha]
      exact Nat.le_succ _
    | ok s1 =>
      have ha : applyOp c s (Op.claimTreasury sender epoch) = s1 :=
        applyOp_eq_of_ok hstep
      rw [ha]
      unfold claimTreasury at hstep
      split_ifs at hstep
      simp only [Except.ok.injEq] at hstep
      subst hstep
      exact Nat.le_succ _
  | transferTreasury sender newTreasury epoch =>
    cases hstep : transferTreasury sender newTreasury s with
    | error e =>
      have ha : applyOp c s (Op.transferTreasury sender newTreasury epoch) = s :=
        applyOp_eq_of_error hstep
      rw [ha]
      exact Nat.le_succ _
    | ok s1 =>
      have ha : applyOp c s (Op.transferTreasury sender newTreasury epoch) = s1 :=
        applyOp_eq_of_ok hstep
      rw [ha]
      unfold transferTreasury at hstep
      split_ifs at hstep
      simp only [Except.ok.injEq] at hstep
      subst hstep
      exact Nat.le_succ _

/-- One step of the conservation argument: the absolute ledger gap grows
by at most the dust budget added by the step (zero except for `kill`
with survivors). -/
theorem gap_applyOp {c : Config} {op : Op} {s : State} {e : Nat}
    (hc : c.valid) (hco : Coherent s) (hcl : ClockLe e s) (hv : ValidOp op)
    (he : e ≤ op.epoch) (hAge : s.totalAge ≤ PRECISION)
    (hIn : (applyOp c s op).totalIn < U96) :
    (ledgerGap (applyOp c s op)).natAbs + s.dustBound ≤
      (ledgerGap s).natAbs + (applyOp c s op).dustBound := by
  cases op with
  | register wallet sender agentId epoch =>
    cases hstep : register c wallet sender agentId epoch s with
    | error err =>
      have ha : applyOp c s (Op.register wallet sender agentId epoch) = s :=
        applyOp_eq_of_error hstep
      rw [ha]
    | ok s1 =>
      have ha : applyOp c s (Op.register wallet sender agentId epoch) = s1 :=
        applyOp_eq_of_ok hstep
      rw [ha]
      obtain ⟨hL, hI, hO, hDu⟩ := ledger_register hstep hco hc
      simp only [ledgerGap]
      omega
  | heartbeat sender epoch =>
    obtain ⟨hs0, he1, heU⟩ := hv
    simp only [Op.epoch] at he he1 heU
    cases hstep : heartbeat c sender epoch s with
    | error err =>
      have ha : applyOp c s (Op.heartbeat sender epoch) = s :=
        applyOp_eq_of_error hstep
      rw [ha]
    | ok s1 =>
      have ha : applyOp c s (Op.heartbeat sender epoch) = s1 :=
        applyOp_eq_of_ok hstep
      rw [ha] at hIn ⊢
      have hclk : (s.agents sender).lastHeartbeatEpoch ≤ epoch :=
        le_trans (hcl sender) he
      have hs1eq := (heartbeat_ok_iff.mp hstep).2.2.2.2.2
      have hIn2 : s.totalIn + c.costPerEpoch < U96 := by
        rw [hs1eq] at hIn
        exact hIn
      obtain ⟨hL, hI, hO, hDu⟩ := ledger_heartbeat hstep hco hclk heU hIn2
      simp only [ledgerGap]
      omega
  | kill target epoch =>
    cases hstep : kill target epoch s with
    | error err =>
      have ha : applyOp c s (Op.kill target epoch) = s :=
        applyOp_eq_of_error hstep
      rw [ha]
    | ok s1 =>
      have ha : applyOp c s (Op.kill target epoch) = s1 :=
        applyOp_eq_of_ok hstep
      rw [ha]
      obtain ⟨S, n, hL, hDu, hSle, hrle, hI, hO⟩ :=
        ledger_kill hstep hco hAge
      simp only [ledgerGap]
      omega
  | claim sender epoch =>
    cases hstep : claim sender s with
    | error err =>
      have ha : applyOp c s (Op.claim sender epoch) = s :=
        applyOp_eq_of_error hstep
      rw [ha]
    | ok s1 =>
      have ha : applyOp c s (Op.claim sender epoch) = s1 :=
        applyOp_eq_of_ok hstep
      rw [ha]
      obtain ⟨payout, hL, hO, hI, hDu⟩ := ledger_claim hstep hco
      simp only [ledgerGap]
      omega
  | claimTreasury sender epoch =>
    cases hstep : claimTreasury sender s with
    | error err =>
      have ha : applyOp c s (Op.claimTreasury sender epoch) = s :=
        applyOp_eq_of_error hstep
      rw [ha]
    | ok s1 =>
      have ha : applyOp c s (Op.claimTreasury sender epoch) = s1 :=
        applyOp_eq_of_ok hstep
      rw [ha]
      obtain ⟨hL, hO, hI, hDu⟩ := ledger_claimTreasury hstep
      simp only [ledgerGap]
      omega
  | transferTreasury sender newTreasury epoch =>
    cases hstep : transferTreasury sender newTreasury s with
    | error err =>
      have ha : applyOp c s (Op.transferTreasury sender newTreasury epoch) =
          s := applyOp_eq_of_error hstep
      rw [ha]
    | ok s1 =>
      have ha : applyOp c s (Op.transferTreasury sender newTreasury epoch) =
          s1 := applyOp_eq_of_ok hstep
      rw [ha]
      obtain ⟨hL, hO, hI, hDu⟩ := ledger_transferTreasury hstep
      simp only [ledgerGap]
      omega

/-- The conservation argument over a whole valid trace: the absolute
ledger gap at the end is bounded by the dust accumulated along the way. -/
theorem gap_fold (c : Config) (hc : c.valid) (ops : List Op) :
    ∀ (s : State) (e : Nat), Coherent s → ClockLe e s →
    (∀ op ∈ ops, ValidOp op) →
    List.Chain (· ≤ ·) e (ops.map Op.epoch) →
    s.totalAge + ops.length ≤ PRECISION →
    (ops.foldl (applyOp c) s).totalIn < U96 →
    (ledgerGap (ops.foldl (applyOp c) s)).natAbs + s.dustBound ≤
      (ledgerGap s).natAbs + (ops.foldl (applyOp c) s).dustBound := by
  induction ops with
  | nil =>
    intro s e _ _ _ _ _ _
    exact Nat.le_refl _
  | cons op rest ih =>
    intro s e hco hcl hval hch hlen hIn
    simp only [List.map_cons] at hch
    cases hch with
    | cons hee hch' =>
      simp only [List.foldl_cons] at hIn ⊢
      have hIn1 : (applyOp c s op).totalIn < U96 :=
        lt_of_le_of_lt (totalIn_foldl rest (applyOp c s op)) hIn
      have hAge : s.totalAge ≤ PRECISION := by
        simp only [List.length_cons] at hlen
        omega
      have hone := coherent_applyOp (c := c) hco hcl
        (hval op (List.mem_cons_self op rest)) hee
      have hsteple := gap_applyOp hc hco hcl
        (hval op (List.mem_cons_self op rest)) hee hAge hIn1
      have hlen1 : (applyOp c s op).totalAge + rest.length ≤ PRECISION := by
        have := totalAge_applyOp (c := c) s op
        simp only [List.length_cons] at hlen
        omega
      have hrec := ih (applyOp c s op) op.epoch hone.1 hone.2
        (fun o ho => hval o (List.mem_cons_of_mem op ho)) hch' hlen1 hIn
      omega

/-- C1 (amended): over every valid trace, net inflow (`totalIn -
totalOut`) equals the internal ledger — the sum over all participants of
`claimable` plus, for the flag-alive ones, the unsettled accumulator
entitlement `age*accRewardPerAge/PRECISION - rewardDebt` and their staked
`totalPaid`, plus `treasuryBalance` — within the accumulated dust bound:
each death event with survivors contributes at most one minimal unit of
floor-division dust per participant left alive (and the remaining
conjuncts pin the dust accounting down: it starts at 0, `kill` adds
exactly the post-kill count of living participants, and every other
operation adds nothing).  Side conditions: the trace is no longer than
`PRECISION` calls and total inflow stays below `2^96` (no `uint96`
truncation). -/
theorem claim_C1_amended {c : Config} {deployer : Nat} {ops : List Op}
    (hc : c.valid) (hv : ValidTrace ops) (hlen : ops.length ≤ PRECISION)
    (hIn : (execTrace c deployer ops).totalIn < U96) :
    (ledgerGap (execTrace c deployer ops)).natAbs ≤
      (execTrace c deployer ops).dustBound ∧
    (initState deployer).dustBound = 0 ∧
    (∀ target pending newTotalAge t,
      (killEffect target pending newTotalAge t).dustBound =
        t.dustBound +
        (if newTotalAge > 0 then
          ((killEffect target pending newTotalAge t).registry.filter
            fun p =>
              ((killEffect target pending newTotalAge t).agents p).alive
           ).length
         else 0)) ∧
    (∀ wallet sender agentId epoch t t1,
      register c wallet sender agentId epoch t = .ok t1 →
      t1.dustBound = t.dustBound) ∧
    (∀ sender epoch t t1, heartbeat c sender epoch t = .ok t1 →
      t1.dustBound = t.dustBound) ∧
    (∀ sender t t1, claim sender t = .ok t1 →
      t1.dustBound = t.dustBound) ∧
    (∀ sender t t1, claimTreasury sender t = .ok t1 →
      t1.dustBound = t.dustBound) ∧
    (∀ sender newTreasury t t1,
      transferTreasury sender newTreasury t = .ok t1 →
      t1.dustBound = t.dustBound) := by
  refine ⟨?_, rfl, fun target pending newTotalAge t => rfl,
    ?_, ?_, ?_, ?_, ?_⟩
  · obtain ⟨hval, hch⟩ := hv
    have h := gap_fold c hc ops (initState deployer) 0
      (coherent_init deployer) (fun p => Nat.le_refl 0) hval
      (chain_zero_of_chain' _ (chain'_of_epochsMono _ hch))
      (by show 0 + ops.length ≤ PRECISION; omega) hIn
    have hinit : (ledgerGap (initState deployer)).natAbs = 0 := by
      simp [ledgerGap, ledgerSum, initState]
    have hd0 : (initState deployer).dustBound = 0 := rfl
    show (ledgerGap (ops.foldl (applyOp c) (initState deployer))).natAbs ≤
      (ops.foldl (applyOp c) (initState deployer)).dustBound
    omega
  · intro wallet sender agentId epoch t t1 hok
    obtain ⟨-, -, -, -, hs1⟩ := register_ok_iff.mp hok
    subst hs1
    rfl
  · intro sender epoch t t1 hok
    obtain ⟨-, -, -, -, -, hs1⟩ := heartbeat_ok_iff.mp hok
    subst hs1
    rfl
  · intro sender t t1 hok
    obtain ⟨-, hcase⟩ := claim_ok_iff.mp hok
    rcases hcase with ⟨-, -, -, hs1⟩ | ⟨-, -, hs1⟩ <;> subst hs1 <;> rfl
  · intro sender t t1 hok
    unfold claimTreasury at hok
    split_ifs at hok
    simp only [Except.ok.injEq] at hok
    subst hok
    rfl
  · intro sender newTreasury t t1 hok
    unfold transferTreasury at hok
    split_ifs at hok
    simp only [Except.ok.injEq] at hok
    subst hok
    rfl

/-- C1 witness: the amended conservation bound after `traceA`:
net inflow 20000 equals the internal ledger (survivor's entitlement 9000
+ stake 9000, treasury 2000) exactly, within the dust bound 1 (one death
event with one survivor). -/
theorem claim_C1_witness :
    Config.valid cfgFix ∧ ValidTrace traceA ∧ traceA.length ≤ PRECISION ∧
    stateA.totalIn < U96 ∧
    (ledgerGap stateA).natAbs ≤ stateA.dustBound :=
  ⟨by decide, by decide, by decide, by decide,
    (@claim_C1_amended cfgFix 9 traceA (by decide) (by decide) (by decide)
      (by decide)).1⟩

end LastAIStanding
